import Mathlib

/-!
Shallow embedding of the `traversal-builder` library (`src/lib/builder.js`,
`src/lib/traversal.js`) and proofs about its traversal and configuration
semantics.

The JavaScript code walks a node tree depth-first.  Mutable object state
(`this.level`, `this.numNodes`, `this._break`) is modelled by explicit state
passing; user-supplied callbacks are modelled as pure functions that report
whether they threw an exception and whether they invoked the traversal's
`break()`; the walk additionally records a trace of the observable
invocations (predicate evaluations, `callback`/`denyCallback` calls, and
`getNodes()` child fetches) so that visitation claims can be stated.
-/

namespace TB

/-- JavaScript values that the limit fields `maxDepth` / `maxNodes` can hold:
`null` (unset, the default for `maxDepth`), `NaN` (what `parseInt` yields on
non-numeric input), or an integer. -/
inductive JsNum where
  | null
  | nan
  | int (n : Int)
deriving DecidableEq, Repr

/-- JavaScript truthiness of a `JsNum`: `null`, `NaN` and `0` are falsy,
every other number is truthy.  This models the `!this.maxDepth` test in
`Traversal._traverse`. -/
def JsNum.truthy : JsNum → Bool
  | .int n => n != 0
  | _ => false

/-- The guard `this.maxNodes > 0 && this.numNodes >= this.maxNodes` from
`Traversal._traverse` (traversal.js line 49).  A `NaN` or `null` `maxNodes`
fails the `> 0` comparison, so no count limit applies. -/
def countLimitHit (maxNodes : JsNum) (numNodes : Nat) : Bool :=
  match maxNodes with
  | .int k => decide (0 < k) && decide (k ≤ (numNodes : Int))
  | _ => false

/-- The guard `!this.maxDepth || this.level <= this.maxDepth` from
`Traversal._traverse` (traversal.js line 63), evaluated after `this.level++`.
A falsy `maxDepth` (`null`, `NaN`, or `0`) short-circuits to `true`
(unlimited descent); otherwise the integer comparison decides. -/
def depthAllows (maxDepth : JsNum) (level : Nat) : Bool :=
  !maxDepth.truthy ||
    (match maxDepth with
     | .int d => decide ((level : Int) ≤ d)
     | _ => false)

/-- A JavaScript value handed to the traversal: either a tree node with a
primary type tag and an ordered list of children (what `node.getNodes()`
yields), or any other value (which `instanceTypeUtil.isNode` rejects and the
walk silently skips). -/
inductive JsVal where
  | node (tag : String) (children : List JsVal)
  | nonNode

/-- The external `instanceTypeUtil.isNode(node)` identity check consumed by
`Traversal._traverse` (traversal.js line 53). -/
def isNode : JsVal → Bool
  | .node _ _ => true
  | .nonNode => false

/-- The external `nodeTypeUtil.isTypeOf(node, types)` classification
contract: true iff the node's primary type tag is a member of the list. -/
def isTypeOf (v : JsVal) (types : List String) : Bool :=
  match v with
  | .node tag _ => types.contains tag
  | .nonNode => false

/-- Result of running a user callback (`callback` / `denyCallback`): the
callback may invoke the traversal's `break()` (`brk`) and may finish by
throwing an exception (`err = some e`) instead of returning. -/
structure CbRet (ε : Type) where
  brk : Bool
  err : Option ε
deriving Repr

/-- The mutable per-instance state of a `Traversal` object: `this.level`,
`this.numNodes` and `this._break`. -/
structure TravState where
  level : Nat
  numNodes : Nat
  brk : Bool
deriving DecidableEq, Repr

/-- Observable invocation performed during a walk, annotated with the depth
(`TravState.level` at the time the node is processed) and the value
concerned: evaluation of the accept predicate, an invocation of `callback`,
an invocation of `denyCallback`, evaluation of the recurse predicate, and a
`node.getNodes()` child fetch. -/
inductive Event where
  | acceptEval (lvl : Nat) (v : JsVal)
  | callEvt (lvl : Nat) (v : JsVal)
  | denyEvt (lvl : Nat) (v : JsVal)
  | recurseEval (lvl : Nat) (v : JsVal)
  | getNodes (lvl : Nat) (v : JsVal)

/-- Outcome of (a sub-walk of) a traversal: the updated mutable state, the
trace of observable invocations in order, and the exception propagating out
of the walk, if any. -/
structure StepOut (ε : Type) where
  state : TravState
  trace : List Event
  err : Option ε

/-- The finalized `Traversal` object (traversal.js constructor): resolved
recurse/accept predicates (user predicates may throw, hence `Except`), the
required `callback`, the optional `denyCallback` (the constructor coerces a
non-function argument to `false`, modelled by `Option`), and the two limits
exactly as passed by `Builder.build`. -/
structure Traversal (ε γ : Type) where
  recurseCallback : JsVal → Except ε Bool
  acceptCallback : JsVal → Except ε Bool
  callback : JsVal → γ → CbRet ε
  denyCallback : Option (JsVal → γ → CbRet ε)
  maxDepth : JsNum
  maxNodes : JsNum

/-- The accept/deny half of `Traversal._traverse` (traversal.js lines
54-59): evaluate `this.acceptCallback(node)`; on `true` run
`this.callback(node, context)` and then `this.numNodes++`; on `false` run
`this.denyCallback(node, context)` when one is set.  A thrown exception
aborts immediately (in particular `numNodes++` is skipped when `callback`
throws); a callback that called `break()` sets the break flag. -/
def acceptPhase (t : Traversal ε γ) (c : γ) (v : JsVal) (s : TravState) :
    TravState × List Event × Option ε :=
  match t.acceptCallback v with
  | .error e => (s, [.acceptEval s.level v], some e)
  | .ok true =>
    let r := t.callback v c
    let s1 : TravState := ⟨s.level, s.numNodes, s.brk || r.brk⟩
    match r.err with
    | some e => (s1, [.acceptEval s.level v, .callEvt s.level v], some e)
    | none => (⟨s1.level, s1.numNodes + 1, s1.brk⟩,
               [.acceptEval s.level v, .callEvt s.level v], none)
  | .ok false =>
    match t.denyCallback with
    | some d =>
      let r := d v c
      let s1 : TravState := ⟨s.level, s.numNodes, s.brk || r.brk⟩
      match r.err with
      | some e => (s1, [.acceptEval s.level v, .denyEvt s.level v], some e)
      | none => (s1, [.acceptEval s.level v, .denyEvt s.level v], none)
    | none => (s, [.acceptEval s.level v], none)

mutual

/-- `Traversal._traverse(node, context)` (traversal.js lines 42-73):
return at once when `this._break` is set or the node-count limit is hit;
skip non-nodes silently; otherwise run the accept/deny phase, then evaluate
`this.recurseCallback(node)`, and if it holds do `this.level++`, check the
depth guard, fetch and walk the children, and `this.level--`.  A propagating
exception skips the `this.level--` exactly as in the source. -/
def _traverse (t : Traversal ε γ) (c : γ) (v : JsVal) (s : TravState) :
    StepOut ε :=
  if s.brk then ⟨s, [], none⟩
  else if countLimitHit t.maxNodes s.numNodes then ⟨s, [], none⟩
  else
    match v with
    | .nonNode => ⟨s, [], none⟩
    | .node tag children =>
      let ap := acceptPhase t c (.node tag children) s
      match ap.2.2 with
      | some e => ⟨ap.1, ap.2.1, some e⟩
      | none =>
        let s1 := ap.1
        let tr1 := ap.2.1
        match t.recurseCallback (.node tag children) with
        | .error e => ⟨s1, tr1 ++ [.recurseEval s.level (.node tag children)], some e⟩
        | .ok false => ⟨s1, tr1 ++ [.recurseEval s.level (.node tag children)], none⟩
        | .ok true =>
          let s2 : TravState := ⟨s1.level + 1, s1.numNodes, s1.brk⟩
          if depthAllows t.maxDepth s2.level then
            let r := _traverseList t c children s2
            match r.err with
            | some e =>
              ⟨r.state,
               tr1 ++ [.recurseEval s.level (.node tag children),
                       .getNodes s.level (.node tag children)] ++ r.trace,
               some e⟩
            | none =>
              ⟨⟨r.state.level - 1, r.state.numNodes, r.state.brk⟩,
               tr1 ++ [.recurseEval s.level (.node tag children),
                       .getNodes s.level (.node tag children)] ++ r.trace,
               none⟩
          else
            ⟨⟨s2.level - 1, s2.numNodes, s2.brk⟩,
             tr1 ++ [.recurseEval s.level (.node tag children)], none⟩
termination_by sizeOf v

/-- The `while (nodes.hasNext()) { this._traverse(nodes.nextNode(), context) }`
loop of traversal.js lines 66-68: walk the children in order; an exception
thrown in a child propagates and the remaining siblings are not visited. -/
def _traverseList (t : Traversal ε γ) (c : γ) (vs : List JsVal) (s : TravState) :
    StepOut ε :=
  match vs with
  | [] => ⟨s, [], none⟩
  | v :: rest =>
    let r := _traverse t c v s
    match r.err with
    | some e => ⟨r.state, r.trace, some e⟩
    | none =>
      let r2 := _traverseList t c rest r.state
      ⟨r2.state, r.trace ++ r2.trace, r2.err⟩
termination_by sizeOf vs

end

/-- `Traversal.traverse(node, context)` (traversal.js lines 82-87): reset
`this.numNodes` to 0 and `this._break` to false — but not `this.level` — and
start the recursive walk. -/
def Traversal.traverse (t : Traversal ε γ) (v : JsVal) (c : γ) (s : TravState) :
    StepOut ε :=
  _traverse t c v ⟨s.level, 0, false⟩

/-- `Traversal.break()` (traversal.js lines 94-96): set `this._break`. -/
def Traversal.break' (s : TravState) : TravState :=
  ⟨s.level, s.numNodes, true⟩

/-! ### The configuration builder (`src/lib/builder.js`) -/

/-- Tag constant `nodeTypeUtil.SITE_PAGE_TYPE` of the external collaborator;
the concrete tag vocabulary is owned by the collaborator, only membership
tests matter here. -/
def SITE_PAGE_TYPE : String := "sv:sitePage"

/-- Tag constant `nodeTypeUtil.PAGE_TYPE`. -/
def PAGE_TYPE : String := "sv:page"

/-- Tag constant `nodeTypeUtil.ARCHIVE_TYPE`. -/
def ARCHIVE_TYPE : String := "sv:archive"

/-- Tag constant `nodeTypeUtil.FOLDER_TYPE`. -/
def FOLDER_TYPE : String := "sv:folder"

/-- Tag constant `nodeTypeUtil.ARTICLE_TYPE`. -/
def ARTICLE_TYPE : String := "sv:article"

/-- builder.js lines 30-35. -/
def DEFAULT_RECURSE_TYPES : List String :=
  [SITE_PAGE_TYPE, PAGE_TYPE, ARCHIVE_TYPE, FOLDER_TYPE]

/-- builder.js lines 37-40. -/
def DEFAULT_ACCEPT_TYPES : List String :=
  [PAGE_TYPE, ARTICLE_TYPE]

/-- builder.js `castToJs`: a `JSON.parse(JSON.stringify(x))` deep-copy
round-trip.  On a list of strings the round-trip succeeds and produces an
equal, disconnected copy; on immutable Lean values this is the identity. -/
def castToJs (mixed : List String) : List String := mixed

/-- Argument handed to `setMaxDepth` / `setMaxNodes`: either a numeric value
whose integer conversion succeeds, or a non-numeric value (e.g. a
non-numeric string) on which JavaScript `parseInt` yields `NaN`. -/
inductive SetterArg where
  | int (n : Int)
  | nonNumeric
deriving DecidableEq, Repr

/-- JavaScript `parseInt` as used by builder.js lines 186 and 207. -/
def parseInt : SetterArg → JsNum
  | .int n => .int n
  | .nonNumeric => .nan

/-- The `Builder` object's fields (builder.js constructor, lines 43-52).
Fields that hold `null` or a function are modelled with `Option`. -/
structure Builder (ε γ : Type) where
  recurseTypes : List String
  acceptTypes : List String
  recurseCallback : Option (JsVal → Except ε Bool)
  acceptCallback : Option (JsVal → Except ε Bool)
  callback : Option (JsVal → γ → CbRet ε)
  denyCallback : Option (JsVal → γ → CbRet ε)
  maxDepth : JsNum
  maxNodes : JsNum

/-- `new Builder()` (builder.js lines 43-52). -/
def Builder.new : Builder ε γ :=
  ⟨DEFAULT_RECURSE_TYPES, DEFAULT_ACCEPT_TYPES, none, none, none, none, .null, .int 0⟩

/-- `Builder.setRecurseTypes` (builder.js lines 60-63).  The argument is
modelled after normalization to an array; `castToJs` deep-copies it. -/
def Builder.setRecurseTypes (b : Builder ε γ) (types : List String) : Builder ε γ :=
  { b with recurseTypes := castToJs types }

/-- `Builder.resetRecurseTypes` (builder.js lines 70-73). -/
def Builder.resetRecurseTypes (b : Builder ε γ) : Builder ε γ :=
  { b with recurseTypes := DEFAULT_RECURSE_TYPES }

/-- `Builder.setAcceptTypes` (builder.js lines 81-84). -/
def Builder.setAcceptTypes (b : Builder ε γ) (types : List String) : Builder ε γ :=
  { b with acceptTypes := castToJs types }

/-- `Builder.resetAcceptTypes` (builder.js lines 91-94). -/
def Builder.resetAcceptTypes (b : Builder ε γ) : Builder ε γ :=
  { b with acceptTypes := DEFAULT_ACCEPT_TYPES }

/-- `Builder.setRecurseCallback` (builder.js lines 105-108). -/
def Builder.setRecurseCallback (b : Builder ε γ) (f : JsVal → Except ε Bool) :
    Builder ε γ :=
  { b with recurseCallback := some f }

/-- `Builder.clearRecurseCallback` (builder.js lines 115-118). -/
def Builder.clearRecurseCallback (b : Builder ε γ) : Builder ε γ :=
  { b with recurseCallback := none }

/-- `Builder.setAcceptCallback` (builder.js lines 129-132). -/
def Builder.setAcceptCallback (b : Builder ε γ) (f : JsVal → Except ε Bool) :
    Builder ε γ :=
  { b with acceptCallback := some f }

/-- `Builder.clearAcceptCallback` (builder.js lines 139-142). -/
def Builder.clearAcceptCallback (b : Builder ε γ) : Builder ε γ :=
  { b with acceptCallback := none }

/-- `Builder.setCallback` (builder.js lines 151-154). -/
def Builder.setCallback (b : Builder ε γ) (f : JsVal → γ → CbRet ε) : Builder ε γ :=
  { b with callback := some f }

/-- `Builder.setDenyCallback` (builder.js lines 163-166). -/
def Builder.setDenyCallback (b : Builder ε γ) (f : JsVal → γ → CbRet ε) : Builder ε γ :=
  { b with denyCallback := some f }

/-- `Builder.clearDenyCallback` (builder.js lines 173-176). -/
def Builder.clearDenyCallback (b : Builder ε γ) : Builder ε γ :=
  { b with denyCallback := none }

/-- `Builder.setMaxDepth` (builder.js lines 185-188): `parseInt` coercion,
no validation, never raises. -/
def Builder.setMaxDepth (b : Builder ε γ) (arg : SetterArg) : Builder ε γ :=
  { b with maxDepth := parseInt arg }

/-- `Builder.clearMaxDepth` (builder.js lines 195-198). -/
def Builder.clearMaxDepth (b : Builder ε γ) : Builder ε γ :=
  { b with maxDepth := .null }

/-- `Builder.setMaxNodes` (builder.js lines 206-209). -/
def Builder.setMaxNodes (b : Builder ε γ) (arg : SetterArg) : Builder ε γ :=
  { b with maxNodes := parseInt arg }

/-- `Builder.resetMaxNodes` (builder.js lines 216-219). -/
def Builder.resetMaxNodes (b : Builder ε γ) : Builder ε γ :=
  { b with maxNodes := .int 0 }

/-- `Builder.resetAllOptionals` (builder.js lines 226-235). -/
def Builder.resetAllOptionals (b : Builder ε γ) : Builder ε γ :=
  b.resetRecurseTypes.resetAcceptTypes.clearRecurseCallback.clearAcceptCallback.clearDenyCallback.clearMaxDepth.resetMaxNodes

/-- The three configuration errors `Builder.build` can throw (builder.js
lines 247-255), in source order. -/
inductive BuildError where
  | missingCallback
  | missingRecurseTypes
  | missingAcceptTypes
deriving DecidableEq, Repr

/-- `Builder.build` (builder.js lines 242-274).  Validation follows the
source order: missing callback, then empty recurse types with no recurse
predicate, then empty accept types with no accept predicate.

On success the source synthesizes default predicates as arrow closures,
`(node) => nodeTypeUtil.isTypeOf(node, this.recurseTypes)`: the closure
captures `this` (the builder object), so each invocation reads the
builder's *current* type list, not the list at build time.  In this
state-passing embedding, the built Traversal is therefore a function of the
builder state at predicate-invocation time: `build` returns
`mk : Builder ε γ → Traversal ε γ`, and `mk bNow` is the built Traversal as
it behaves when the (mutable) builder holds state `bNow`.  User-supplied
predicates and the `callback` / `denyCallback` / `maxDepth` / `maxNodes`
fields are read once at build time (from `b` itself), exactly as in the
source. -/
def Builder.build (b : Builder ε γ) :
    Except BuildError (Builder ε γ → Traversal ε γ) :=
  match b.callback with
  | none => .error .missingCallback
  | some cb =>
    if b.recurseTypes.length = 0 && b.recurseCallback.isNone then
      .error .missingRecurseTypes
    else if b.acceptTypes.length = 0 && b.acceptCallback.isNone then
      .error .missingAcceptTypes
    else
      .ok (fun bNow =>
        { recurseCallback :=
            match b.recurseCallback with
            | some f => f
            | none => fun node => .ok (isTypeOf node bNow.recurseTypes)
          acceptCallback :=
            match b.acceptCallback with
            | some f => f
            | none => fun node => .ok (isTypeOf node bNow.acceptTypes)
          callback := cb
          denyCallback := b.denyCallback
          maxDepth := b.maxDepth
          maxNodes := b.maxNodes })

/-- `Builder.build` in state-passing form: the result of the call together
with the state of `this` when the call returns or throws.  The source's
`build` reads `this` but never assigns to it (only the locals
`recurseCallback` / `acceptCallback` are assigned), so the post-state is the
input builder in both the success and the throw path. -/
def Builder.buildS (b : Builder ε γ) :
    Except BuildError (Builder ε γ → Traversal ε γ) × Builder ε γ :=
  (b.build, b)

/-! ### Trace bookkeeping helpers -/

/-- Recognizer for `callback` invocation events. -/
def isCallEvt : Event → Bool
  | .callEvt _ _ => true
  | _ => false

/-- Recognizer for events that constitute a visit of a node: evaluation of
its accept predicate, a `callback` invocation, or a `denyCallback`
invocation. -/
def isVisitEvt : Event → Bool
  | .acceptEval _ _ => true
  | .callEvt _ _ => true
  | .denyEvt _ _ => true
  | _ => false

/-- Number of `callback` invocations recorded in a trace. -/
def callCount (tr : List Event) : Nat := tr.countP (fun e => isCallEvt e)

/-- The recursion level an event was recorded at. -/
def Event.lvl : Event → Nat
  | .acceptEval l _ => l
  | .callEvt l _ => l
  | .denyEvt l _ => l
  | .recurseEval l _ => l
  | .getNodes l _ => l

/-- Number of `this.numNodes++` increments performed by the accept/deny
phase on a node: one exactly when the accept predicate returns `true` (and
nothing throws). -/
def apInc (t : Traversal ε γ) (v : JsVal) : Nat :=
  match t.acceptCallback v with
  | .ok true => 1
  | _ => 0

/-- Trace produced by the accept/deny phase on a node when nothing throws. -/
def apTrace (t : Traversal ε γ) (v : JsVal) (L : Nat) : List Event :=
  match t.acceptCallback v with
  | .ok true => [.acceptEval L v, .callEvt L v]
  | .ok false =>
    match t.denyCallback with
    | some _ => [.acceptEval L v, .denyEvt L v]
    | none => [.acceptEval L v]
  | .error _ => [.acceptEval L v]

/-- A traversal whose user-supplied functions are ordinary pure callbacks:
the predicates never throw, and `callback` / `denyCallback` neither throw
nor invoke `break()`. -/
def PureCbs (t : Traversal ε γ) : Prop :=
  (∀ v, ∃ b, t.acceptCallback v = .ok b) ∧
  (∀ v, ∃ b, t.recurseCallback v = .ok b) ∧
  (∀ v c, t.callback v c = ⟨false, none⟩) ∧
  (∀ d, t.denyCallback = some d → ∀ v c, d v c = ⟨false, none⟩)

theorem acceptPhase_pure {t : Traversal ε γ} (h : PureCbs t) (c : γ) (v : JsVal)
    (s : TravState) :
    acceptPhase t c v s =
      (⟨s.level, s.numNodes + apInc t v, s.brk⟩, apTrace t v s.level, none) := by
  obtain ⟨ha, _, hcb, hd⟩ := h
  obtain ⟨b, hb⟩ := ha v
  cases b with
  | true => simp [acceptPhase, apInc, apTrace, hb, hcb]
  | false =>
    cases hdc : t.denyCallback with
    | none => simp [acceptPhase, apInc, apTrace, hb, hdc]
    | some d => simp [acceptPhase, apInc, apTrace, hb, hdc, hd d hdc]


theorem isCallEvt_acceptEval (l : Nat) (v : JsVal) : isCallEvt (.acceptEval l v) = false := rfl
theorem isCallEvt_callEvt (l : Nat) (v : JsVal) : isCallEvt (.callEvt l v) = true := rfl
theorem isCallEvt_denyEvt (l : Nat) (v : JsVal) : isCallEvt (.denyEvt l v) = false := rfl
theorem isCallEvt_recurseEval (l : Nat) (v : JsVal) : isCallEvt (.recurseEval l v) = false := rfl
theorem isCallEvt_getNodes (l : Nat) (v : JsVal) : isCallEvt (.getNodes l v) = false := rfl

theorem callCount_nil : callCount ([] : List Event) = 0 := rfl

theorem callCount_cons (e : Event) (tr : List Event) :
    callCount (e :: tr) = callCount tr + (if isCallEvt e then 1 else 0) := by
  simp [callCount, List.countP_cons]

theorem callCount_append (a b : List Event) :
    callCount (a ++ b) = callCount a + callCount b := by
  simp [callCount, List.countP_append]

theorem callCount_apTrace (t : Traversal ε γ) (v : JsVal) (L : Nat) :
    callCount (apTrace t v L) = apInc t v := by
  unfold apTrace apInc
  cases t.acceptCallback v with
  | error e => simp [callCount_cons, callCount_nil, isCallEvt_acceptEval]
  | ok b =>
    cases b with
    | true =>
      simp [callCount_cons, callCount_nil, isCallEvt_acceptEval, isCallEvt_callEvt]
    | false =>
      cases t.denyCallback <;>
        simp [callCount_cons, callCount_nil, isCallEvt_acceptEval, isCallEvt_denyEvt]

/-- Behavior of a sub-walk with pure callbacks started in a non-broken state. -/
def RunSpec (r : StepOut ε) (s : TravState) : Prop :=
  r.err = none ∧ r.state.brk = false ∧ r.state.level = s.level ∧
  r.state.numNodes = s.numNodes + callCount r.trace

theorem pure_run_spec (t : Traversal ε γ) (c : γ) (h : PureCbs t) :
    (∀ v s, s.brk = false → RunSpec (_traverse t c v s) s) ∧
    (∀ vs s, s.brk = false → RunSpec (_traverseList t c vs s) s) := by
  refine _traverse.mutual_induct t c
    (fun v s => s.brk = false → RunSpec (_traverse t c v s) s)
    (fun vs s => s.brk = false → RunSpec (_traverseList t c vs s) s)
    ?_ ?_ ?_ ?_ ?_ ?_ ?_ ?_ ?_ ?_ ?_ ?_
  · intro v s hb hbf; rw [hb] at hbf; exact absurd hbf (by simp)
  · intro v s hnb hcnt hbf
    rw [_traverse.eq_def, if_neg (by simp [hbf]), if_pos hcnt]
    simp [RunSpec, hbf, callCount_nil]
  · intro s hnb hcnt hbf
    rw [_traverse.eq_def, if_neg (by simp [hbf]), if_neg hcnt]
    simp [RunSpec, hbf, callCount_nil]
  · intro s hnb hcnt tag children ap e hap hbf
    rw [show ap = acceptPhase t c (JsVal.node tag children) s from rfl,
      acceptPhase_pure h] at hap
    simp at hap
  · intro s hnb hcnt tag children ap hap e hrec hbf
    obtain ⟨b, hb⟩ := h.2.1 (JsVal.node tag children)
    rw [hb] at hrec; exact absurd hrec (by simp)
  · intro s hnb hcnt tag children ap hap hrec hbf
    simp only [_traverse]
    rw [if_neg (by simp [hbf]), if_neg hcnt]
    rw [acceptPhase_pure h]
    simp [hrec, RunSpec, hbf, callCount_append, callCount_apTrace, callCount_cons,
      callCount_nil, isCallEvt_recurseEval]
  · intro s hnb hcnt tag children ap hap s1 hrec s2 hdep r e herr ih hbf
    have hpure := acceptPhase_pure h c (JsVal.node tag children) s
    have hs2 : s2.brk = false := by
      show s1.brk = false
      show ap.1.brk = false
      rw [show ap = acceptPhase t c (JsVal.node tag children) s from rfl, hpure]
      exact hbf
    obtain ⟨hee, -, -, -⟩ := ih hs2
    rw [show r = _traverseList t c children s2 from rfl] at herr
    rw [hee] at herr
    exact absurd herr (by simp)
  · intro s hnb hcnt tag children ap hap s1 hrec s2 hdep r herr ih hbf
    have hpure := acceptPhase_pure h c (JsVal.node tag children) s
    have hs2eq : s2 = ⟨s.level + 1, s.numNodes + apInc t (JsVal.node tag children), false⟩ := by
      show (⟨s1.level + 1, s1.numNodes, s1.brk⟩ : TravState) = _
      rw [show s1 = ap.1 from rfl, show ap = acceptPhase t c (JsVal.node tag children) s from rfl,
        hpure, hbf]
    obtain ⟨h1, h2, h3, h4⟩ := ih (by rw [hs2eq])
    rw [hs2eq] at h1 h2 h3 h4
    have hdep2 : depthAllows t.maxDepth (s.level + 1) = true := by
      rw [hs2eq] at hdep; exact hdep
    have h3' : (_traverseList t c children
        ⟨s.level + 1, s.numNodes + apInc t (JsVal.node tag children), false⟩).state.level
        = s.level + 1 := h3
    have h4' : (_traverseList t c children
        ⟨s.level + 1, s.numNodes + apInc t (JsVal.node tag children), false⟩).state.numNodes
        = s.numNodes + apInc t (JsVal.node tag children) + callCount (_traverseList t c children
        ⟨s.level + 1, s.numNodes + apInc t (JsVal.node tag children), false⟩).trace := h4
    simp only [_traverse]
    rw [if_neg (by simp [hbf]), if_neg hcnt]
    rw [acceptPhase_pure h]
    simp only [hrec, hbf]
    rw [if_pos hdep2]
    simp only [h1]
    refine ⟨rfl, h2, ?_, ?_⟩
    · simp only [h3']; omega
    · simp [h4', callCount_append, callCount_apTrace, callCount_cons, callCount_nil,
        isCallEvt_recurseEval, isCallEvt_getNodes]
      omega
  · intro s hnb hcnt tag children ap hap s1 hrec s2 hdep hbf
    have hpure := acceptPhase_pure h c (JsVal.node tag children) s
    have hs1lvl : s1.level = s.level := by
      show ap.1.level = s.level
      rw [show ap = acceptPhase t c (JsVal.node tag children) s from rfl, hpure]
    have hdep2 : depthAllows t.maxDepth (s.level + 1) = false := by
      rw [← hs1lvl]
      simpa using hdep
    simp only [_traverse]
    rw [if_neg (by simp [hbf]), if_neg hcnt]
    rw [acceptPhase_pure h]
    simp only [hrec]
    rw [if_neg (by simp [hdep2])]
    simp [RunSpec, hbf, callCount_append, callCount_apTrace, callCount_cons, callCount_nil,
      isCallEvt_recurseEval]
  · intro s hbf
    simp only [_traverseList]
    simp [RunSpec, hbf, callCount_nil]
  · intro s v rest r e herr ih hbf
    obtain ⟨hee, -, -, -⟩ := ih hbf
    rw [show r = _traverse t c v s from rfl, hee] at herr
    exact absurd herr (by simp)
  · intro s v rest r herr ih1 ih2 hbf
    obtain ⟨h1, h2, h3, h4⟩ := ih1 hbf
    obtain ⟨g1, g2, g3, g4⟩ := ih2 (by
      rw [show r = _traverse t c v s from rfl]; exact h2)
    rw [show r = _traverse t c v s from rfl] at g1 g2 g3 g4
    simp only [_traverseList]
    simp only [h1]
    refine ⟨g1, g2, ?_, ?_⟩
    · rw [g3, h3]
    · rw [g4, h4, callCount_append]; omega



theorem _traverse_brk (t : Traversal ε γ) (c : γ) (v : JsVal) (s : TravState)
    (hb : s.brk = true) : _traverse t c v s = ⟨s, [], none⟩ := by
  rw [_traverse.eq_def, if_pos hb]

theorem _traverse_count (t : Traversal ε γ) (c : γ) (v : JsVal) (s : TravState)
    (hb : s.brk = false) (hcnt : countLimitHit t.maxNodes s.numNodes = true) :
    _traverse t c v s = ⟨s, [], none⟩ := by
  rw [_traverse.eq_def, if_neg (by simp [hb]), if_pos hcnt]

theorem _traverse_nonNode (t : Traversal ε γ) (c : γ) (s : TravState)
    (hb : s.brk = false) (hcnt : countLimitHit t.maxNodes s.numNodes = false) :
    _traverse t c .nonNode s = ⟨s, [], none⟩ := by
  rw [_traverse.eq_def, if_neg (by simp [hb]), if_neg (by simp [hcnt])]

theorem _traverse_apErr (t : Traversal ε γ) (c : γ) (tag : String)
    (children : List JsVal) (s : TravState) (e : ε)
    (hb : s.brk = false) (hcnt : countLimitHit t.maxNodes s.numNodes = false)
    (hap : (acceptPhase t c (.node tag children) s).2.2 = some e) :
    _traverse t c (.node tag children) s =
      ⟨(acceptPhase t c (.node tag children) s).1,
       (acceptPhase t c (.node tag children) s).2.1, some e⟩ := by
  simp only [_traverse]
  rw [if_neg (by simp [hb]), if_neg (by simp [hcnt]), hap]

theorem _traverse_recErr (t : Traversal ε γ) (c : γ) (tag : String)
    (children : List JsVal) (s : TravState) (e : ε)
    (hb : s.brk = false) (hcnt : countLimitHit t.maxNodes s.numNodes = false)
    (hap : (acceptPhase t c (.node tag children) s).2.2 = none)
    (hrec : t.recurseCallback (.node tag children) = .error e) :
    _traverse t c (.node tag children) s =
      ⟨(acceptPhase t c (.node tag children) s).1,
       (acceptPhase t c (.node tag children) s).2.1
         ++ [.recurseEval s.level (.node tag children)], some e⟩ := by
  simp only [_traverse]
  rw [if_neg (by simp [hb]), if_neg (by simp [hcnt]), hap, hrec]

theorem _traverse_recFalse (t : Traversal ε γ) (c : γ) (tag : String)
    (children : List JsVal) (s : TravState)
    (hb : s.brk = false) (hcnt : countLimitHit t.maxNodes s.numNodes = false)
    (hap : (acceptPhase t c (.node tag children) s).2.2 = none)
    (hrec : t.recurseCallback (.node tag children) = .ok false) :
    _traverse t c (.node tag children) s =
      ⟨(acceptPhase t c (.node tag children) s).1,
       (acceptPhase t c (.node tag children) s).2.1
         ++ [.recurseEval s.level (.node tag children)], none⟩ := by
  simp only [_traverse]
  rw [if_neg (by simp [hb]), if_neg (by simp [hcnt]), hap, hrec]

theorem _traverse_recTrue_deep (t : Traversal ε γ) (c : γ) (tag : String)
    (children : List JsVal) (s : TravState)
    (hb : s.brk = false) (hcnt : countLimitHit t.maxNodes s.numNodes = false)
    (hap : (acceptPhase t c (.node tag children) s).2.2 = none)
    (hrec : t.recurseCallback (.node tag children) = .ok true)
    (hdep : depthAllows t.maxDepth ((acceptPhase t c (.node tag children) s).1.level + 1) = true) :
    _traverse t c (.node tag children) s =
      (fun r =>
        match r.err with
        | some e =>
          ⟨r.state,
           (acceptPhase t c (.node tag children) s).2.1
             ++ [.recurseEval s.level (.node tag children),
                 .getNodes s.level (.node tag children)] ++ r.trace, some e⟩
        | none =>
          ⟨⟨r.state.level - 1, r.state.numNodes, r.state.brk⟩,
           (acceptPhase t c (.node tag children) s).2.1
             ++ [.recurseEval s.level (.node tag children),
                 .getNodes s.level (.node tag children)] ++ r.trace, none⟩)
      (_traverseList t c children
        ⟨(acceptPhase t c (.node tag children) s).1.level + 1,
         (acceptPhase t c (.node tag children) s).1.numNodes,
         (acceptPhase t c (.node tag children) s).1.brk⟩) := by
  simp only [_traverse]
  rw [if_neg (by simp [hb]), if_neg (by simp [hcnt]), hap, hrec, if_pos hdep]

theorem _traverse_recTrue_shallow (t : Traversal ε γ) (c : γ) (tag : String)
    (children : List JsVal) (s : TravState)
    (hb : s.brk = false) (hcnt : countLimitHit t.maxNodes s.numNodes = false)
    (hap : (acceptPhase t c (.node tag children) s).2.2 = none)
    (hrec : t.recurseCallback (.node tag children) = .ok true)
    (hdep : depthAllows t.maxDepth ((acceptPhase t c (.node tag children) s).1.level + 1) = false) :
    _traverse t c (.node tag children) s =
      ⟨⟨(acceptPhase t c (.node tag children) s).1.level + 1 - 1,
        (acceptPhase t c (.node tag children) s).1.numNodes,
        (acceptPhase t c (.node tag children) s).1.brk⟩,
       (acceptPhase t c (.node tag children) s).2.1
         ++ [.recurseEval s.level (.node tag children)], none⟩ := by
  simp only [_traverse]
  rw [if_neg (by simp [hb]), if_neg (by simp [hcnt]), hap, hrec, if_neg (by simp [hdep])]

theorem _traverseList_nil (t : Traversal ε γ) (c : γ) (s : TravState) :
    _traverseList t c [] s = ⟨s, [], none⟩ := by
  simp [_traverseList]

theorem _traverseList_cons_err (t : Traversal ε γ) (c : γ) (v : JsVal)
    (rest : List JsVal) (s : TravState) (e : ε)
    (herr : (_traverse t c v s).err = some e) :
    _traverseList t c (v :: rest) s =
      ⟨(_traverse t c v s).state, (_traverse t c v s).trace, some e⟩ := by
  simp only [_traverseList]
  rw [herr]

theorem _traverseList_cons_ok (t : Traversal ε γ) (c : γ) (v : JsVal)
    (rest : List JsVal) (s : TravState)
    (herr : (_traverse t c v s).err = none) :
    _traverseList t c (v :: rest) s =
      ⟨(_traverseList t c rest (_traverse t c v s).state).state,
       (_traverse t c v s).trace
         ++ (_traverseList t c rest (_traverse t c v s).state).trace,
       (_traverseList t c rest (_traverse t c v s).state).err⟩ := by
  simp only [_traverseList]
  rw [herr]




theorem isVisitEvt_acceptEval (l : Nat) (v : JsVal) : isVisitEvt (.acceptEval l v) = true := rfl
theorem isVisitEvt_callEvt (l : Nat) (v : JsVal) : isVisitEvt (.callEvt l v) = true := rfl
theorem isVisitEvt_denyEvt (l : Nat) (v : JsVal) : isVisitEvt (.denyEvt l v) = true := rfl
theorem isVisitEvt_recurseEval (l : Nat) (v : JsVal) : isVisitEvt (.recurseEval l v) = false := rfl
theorem isVisitEvt_getNodes (l : Nat) (v : JsVal) : isVisitEvt (.getNodes l v) = false := rfl

/-- Every visit event in the trace is recorded while the running `callback`
count (started at `n`) is still strictly below `k`. -/
def VisitsBounded (k : Nat) : Nat → List Event → Prop
  | _, [] => True
  | n, e :: rest =>
    (isVisitEvt e = true → n < k) ∧
    VisitsBounded k (n + (if isCallEvt e then 1 else 0)) rest

theorem visitsBounded_append (k : Nat) (a b : List Event) (n : Nat) :
    VisitsBounded k n (a ++ b) ↔
      (VisitsBounded k n a ∧ VisitsBounded k (n + callCount a) b) := by
  induction a generalizing n with
  | nil => simp [VisitsBounded, callCount_nil]
  | cons e rest ih =>
    simp only [List.cons_append, VisitsBounded, List.append_eq, ih, callCount_cons]
    have hc : n + (if isCallEvt e then 1 else 0) + callCount rest
        = n + (callCount rest + if isCallEvt e then 1 else 0) := by omega
    rw [hc, and_assoc]

theorem visitsBounded_apTrace (k n : Nat) (hn : n < k) (t : Traversal ε γ)
    (v : JsVal) (L : Nat) : VisitsBounded k n (apTrace t v L) := by
  unfold apTrace
  cases t.acceptCallback v with
  | error e => exact ⟨fun _ => hn, trivial⟩
  | ok b =>
    cases b with
    | true => exact ⟨fun _ => hn, fun _ => hn, trivial⟩
    | false =>
      cases t.denyCallback with
      | none => exact ⟨fun _ => hn, trivial⟩
      | some d => exact ⟨fun _ => hn, fun _ => hn, trivial⟩

theorem countLimit_false_lt (k : Nat) (n : Nat) (hk : 0 < k)
    (h : countLimitHit (.int (k : Int)) n = false) : n < k := by
  simp [countLimitHit] at h
  omega

theorem limited_visits_bounded (t : Traversal ε γ) (c : γ) (h : PureCbs t)
    (k : Nat) (hk : 0 < k) (hmn : t.maxNodes = .int (k : Int)) :
    (∀ v s, s.brk = false → VisitsBounded k s.numNodes (_traverse t c v s).trace) ∧
    (∀ vs s, s.brk = false → VisitsBounded k s.numNodes (_traverseList t c vs s).trace) := by
  refine _traverse.mutual_induct t c
    (fun v s => s.brk = false → VisitsBounded k s.numNodes (_traverse t c v s).trace)
    (fun vs s => s.brk = false → VisitsBounded k s.numNodes (_traverseList t c vs s).trace)
    ?_ ?_ ?_ ?_ ?_ ?_ ?_ ?_ ?_ ?_ ?_ ?_
  · intro v s hb hbf; rw [hb] at hbf; exact absurd hbf (by simp)
  · intro v s hnb hcnt hbf
    rw [_traverse_count t c v s hbf hcnt]
    exact trivial
  · intro s hnb hcnt hbf
    rw [_traverse_nonNode t c s hbf (by simpa using hcnt)]
    exact trivial
  · intro s hnb hcnt tag children ap e hap hbf
    rw [show ap = acceptPhase t c (JsVal.node tag children) s from rfl,
      acceptPhase_pure h] at hap
    simp at hap
  · intro s hnb hcnt tag children ap hap e hrec hbf
    obtain ⟨b, hb⟩ := h.2.1 (JsVal.node tag children)
    rw [hb] at hrec; exact absurd hrec (by simp)
  · intro s hnb hcnt tag children ap hap hrec hbf
    have hlt : s.numNodes < k :=
      countLimit_false_lt k s.numNodes hk (by rw [← hmn]; simpa using hcnt)
    rw [_traverse_recFalse t c tag children s hbf (by simpa using hcnt) hap hrec]
    rw [acceptPhase_pure h]
    refine (visitsBounded_append k _ _ _).2 ⟨visitsBounded_apTrace k _ hlt t _ _, ?_⟩
    exact ⟨by simp [isVisitEvt_recurseEval], trivial⟩
  · intro s hnb hcnt tag children ap hap s1 hrec s2 hdep r e herr ih hbf
    have hpure := acceptPhase_pure h c (JsVal.node tag children) s
    have hs2 : s2.brk = false := by
      show ap.1.brk = false
      rw [show ap = acceptPhase t c (JsVal.node tag children) s from rfl, hpure]
      exact hbf
    obtain ⟨hee, -, -, -⟩ := (pure_run_spec t c h).2 children s2 hs2
    rw [show r = _traverseList t c children s2 from rfl, hee] at herr
    exact absurd herr (by simp)
  · intro s hnb hcnt tag children ap hap s1 hrec s2 hdep r herr ih hbf
    have hpure := acceptPhase_pure h c (JsVal.node tag children) s
    have hlt : s.numNodes < k :=
      countLimit_false_lt k s.numNodes hk (by rw [← hmn]; simpa using hcnt)
    have hs2eq : s2 = ⟨s.level + 1, s.numNodes + apInc t (JsVal.node tag children), false⟩ := by
      show (⟨s1.level + 1, s1.numNodes, s1.brk⟩ : TravState) = _
      rw [show s1 = ap.1 from rfl, show ap = acceptPhase t c (JsVal.node tag children) s from rfl,
        hpure, hbf]
    have hvb : VisitsBounded k s2.numNodes (_traverseList t c children s2).trace :=
      ih (by rw [hs2eq])
    have herr2 : (_traverseList t c children s2).err = none := herr
    rw [hs2eq] at herr2 hvb
    rw [_traverse_recTrue_deep t c tag children s hbf (by simpa using hcnt) hap hrec hdep]
    rw [hpure]
    simp only [hbf]
    simp only [herr2]
    refine (visitsBounded_append k _ _ _).2 ⟨?_, ?_⟩
    · refine (visitsBounded_append k _ _ _).2 ⟨visitsBounded_apTrace k _ hlt t _ _, ?_⟩
      exact ⟨by simp [isVisitEvt_recurseEval], by simp [isVisitEvt_getNodes], trivial⟩
    · have hcount : s.numNodes
          + callCount (apTrace t (JsVal.node tag children) s.level
            ++ [Event.recurseEval s.level (JsVal.node tag children),
                Event.getNodes s.level (JsVal.node tag children)])
          = s.numNodes + apInc t (JsVal.node tag children) := by
        simp [callCount_append, callCount_apTrace, callCount_cons, callCount_nil,
          isCallEvt_recurseEval, isCallEvt_getNodes]
      rw [hcount]
      exact hvb
  · intro s hnb hcnt tag children ap hap s1 hrec s2 hdep hbf
    have hlt : s.numNodes < k :=
      countLimit_false_lt k s.numNodes hk (by rw [← hmn]; simpa using hcnt)
    rw [_traverse_recTrue_shallow t c tag children s hbf (by simpa using hcnt) hap hrec
      (by simpa using hdep)]
    rw [acceptPhase_pure h]
    refine (visitsBounded_append k _ _ _).2 ⟨visitsBounded_apTrace k _ hlt t _ _, ?_⟩
    exact ⟨by simp [isVisitEvt_recurseEval], trivial⟩
  · intro s hbf
    rw [_traverseList_nil]
    exact trivial
  · intro s v rest r e herr ih hbf
    obtain ⟨hee, -, -, -⟩ := (pure_run_spec t c h).1 v s hbf
    rw [show r = _traverse t c v s from rfl, hee] at herr
    exact absurd herr (by simp)
  · intro s v rest r herr ih1 ih2 hbf
    obtain ⟨h1, h2, h3, h4⟩ := (pure_run_spec t c h).1 v s hbf
    rw [_traverseList_cons_ok t c v rest s h1]
    refine (visitsBounded_append k _ _ _).2 ⟨ih1 hbf, ?_⟩
    rw [← h4]
    exact ih2 h2


theorem visitsBounded_no_visit_after (k : Nat) (xs : List Event) :
    ∀ (n : Nat) (e : Event) (ys : List Event),
      VisitsBounded k n (xs ++ e :: ys) → isVisitEvt e = true →
      n + callCount xs < k := by
  induction xs with
  | nil =>
    intro n e ys hv hve
    have := hv.1 hve
    simpa [callCount_nil] using this
  | cons x rest ih =>
    intro n e ys hv hve
    have h2 := hv.2
    have := ih (n + (if isCallEvt x then 1 else 0)) e ys h2 hve
    rw [callCount_cons]
    omega

theorem countLimitHit_zero (n : Nat) : countLimitHit (.int 0) n = false := by
  simp [countLimitHit]

theorem countLimit_true_ge (k n : Nat) (h : countLimitHit (.int (k : Int)) n = true) :
    k ≤ n := by
  simp [countLimitHit] at h
  omega

theorem apInc_le_one (t : Traversal ε γ) (v : JsVal) : apInc t v ≤ 1 := by
  unfold apInc
  cases t.acceptCallback v with
  | error e => exact Nat.zero_le 1
  | ok b => cases b <;> simp

section Congr

variable {t t' : Traversal ε γ}

theorem acceptPhase_congr (hfa : t'.acceptCallback = t.acceptCallback)
    (hfc : t'.callback = t.callback) (hfd : t'.denyCallback = t.denyCallback)
    (c : γ) (v : JsVal) (s : TravState) :
    acceptPhase t' c v s = acceptPhase t c v s := by
  unfold acceptPhase
  rw [hfa, hfc, hfd]

theorem apInc_congr (hfa : t'.acceptCallback = t.acceptCallback) (v : JsVal) :
    apInc t' v = apInc t v := by
  unfold apInc
  rw [hfa]

theorem pureCbs_congr (hfr : t'.recurseCallback = t.recurseCallback)
    (hfa : t'.acceptCallback = t.acceptCallback)
    (hfc : t'.callback = t.callback) (hfd : t'.denyCallback = t.denyCallback)
    (h : PureCbs t) : PureCbs t' := by
  unfold PureCbs
  rw [hfa, hfr, hfc, hfd]
  exact h

end Congr

theorem limited_min (t t' : Traversal ε γ) (c : γ) (h : PureCbs t) (k : Nat)
    (hk : 0 < k) (hmn : t.maxNodes = .int (k : Int))
    (hfr : t'.recurseCallback = t.recurseCallback)
    (hfa : t'.acceptCallback = t.acceptCallback)
    (hfc : t'.callback = t.callback)
    (hfd : t'.denyCallback = t.denyCallback)
    (hfdep : t'.maxDepth = t.maxDepth)
    (hmn' : t'.maxNodes = .int 0) :
    (∀ v s, s.brk = false → ∀ su, su.brk = false → su.level = s.level →
      s.numNodes = min su.numNodes k →
      (_traverse t c v s).state.numNodes
        = min ((_traverse t' c v su).state.numNodes) k) ∧
    (∀ vs s, s.brk = false → ∀ su, su.brk = false → su.level = s.level →
      s.numNodes = min su.numNodes k →
      (_traverseList t c vs s).state.numNodes
        = min ((_traverseList t' c vs su).state.numNodes) k) := by
  have h' : PureCbs t' := pureCbs_congr hfr hfa hfc hfd h
  have hcnt' : ∀ n, countLimitHit t'.maxNodes n = false := by
    intro n; rw [hmn']; exact countLimitHit_zero n
  refine _traverse.mutual_induct t c
    (fun v s => s.brk = false → ∀ su, su.brk = false → su.level = s.level →
      s.numNodes = min su.numNodes k →
      (_traverse t c v s).state.numNodes
        = min ((_traverse t' c v su).state.numNodes) k)
    (fun vs s => s.brk = false → ∀ su, su.brk = false → su.level = s.level →
      s.numNodes = min su.numNodes k →
      (_traverseList t c vs s).state.numNodes
        = min ((_traverseList t' c vs su).state.numNodes) k)
    ?_ ?_ ?_ ?_ ?_ ?_ ?_ ?_ ?_ ?_ ?_ ?_
  · intro v s hb hbf; rw [hb] at hbf; exact absurd hbf (by simp)
  · intro v s hnb hcnt hbf su hsu hlvl hmin
    rw [_traverse_count t c v s hbf hcnt]
    have hge : k ≤ s.numNodes := countLimit_true_ge k s.numNodes (by rw [← hmn]; exact hcnt)
    obtain ⟨-, -, -, h4⟩ := (pure_run_spec t' c h').1 v su hsu
    show s.numNodes = min ((_traverse t' c v su).state.numNodes) k
    rw [h4]
    omega
  · intro s hnb hcnt hbf su hsu hlvl hmin
    rw [_traverse_nonNode t c s hbf (by simpa using hcnt),
      _traverse_nonNode t' c su hsu (hcnt' su.numNodes)]
    exact hmin
  · intro s hnb hcnt tag children ap e hap hbf su hsu hlvl hmin
    rw [show ap = acceptPhase t c (JsVal.node tag children) s from rfl,
      acceptPhase_pure h] at hap
    simp at hap
  · intro s hnb hcnt tag children ap hap e hrec hbf su hsu hlvl hmin
    obtain ⟨b, hb⟩ := h.2.1 (JsVal.node tag children)
    rw [hb] at hrec; exact absurd hrec (by simp)
  · intro s hnb hcnt tag children ap hap hrec hbf su hsu hlvl hmin
    have hlt : s.numNodes < k :=
      countLimit_false_lt k s.numNodes hk (by rw [← hmn]; simpa using hcnt)
    have hapinc := apInc_le_one t (JsVal.node tag children)
    rw [_traverse_recFalse t c tag children s hbf (by simpa using hcnt) hap hrec,
      acceptPhase_pure h]
    rw [_traverse_recFalse t' c tag children su hsu (hcnt' su.numNodes)
      (by rw [acceptPhase_congr hfa hfc hfd, acceptPhase_pure h])
      (by rw [hfr]; exact hrec), acceptPhase_congr hfa hfc hfd, acceptPhase_pure h]
    simp only
    omega
  · intro s hnb hcnt tag children ap hap s1 hrec s2 hdep r e herr ih hbf su hsu hlvl hmin
    have hpure := acceptPhase_pure h c (JsVal.node tag children) s
    have hs2 : s2.brk = false := by
      show ap.1.brk = false
      rw [show ap = acceptPhase t c (JsVal.node tag children) s from rfl, hpure]
      exact hbf
    obtain ⟨hee, -, -, -⟩ := (pure_run_spec t c h).2 children s2 hs2
    have herr2 : (_traverseList t c children s2).err = some e := herr
    rw [hee] at herr2
    exact absurd herr2 (by simp)
  · intro s hnb hcnt tag children ap hap s1 hrec s2 hdep r herr ih hbf su hsu hlvl hmin
    have hpure := acceptPhase_pure h c (JsVal.node tag children) s
    have hpure' := acceptPhase_pure h' c (JsVal.node tag children) su
    have hlt : s.numNodes < k :=
      countLimit_false_lt k s.numNodes hk (by rw [← hmn]; simpa using hcnt)
    have hapinc := apInc_le_one t (JsVal.node tag children)
    have hapic := apInc_congr hfa (JsVal.node tag children)
    have hs2eq : s2 = ⟨s.level + 1, s.numNodes + apInc t (JsVal.node tag children), false⟩ := by
      show (⟨s1.level + 1, s1.numNodes, s1.brk⟩ : TravState) = _
      rw [show s1 = ap.1 from rfl, show ap = acceptPhase t c (JsVal.node tag children) s from rfl,
        hpure, hbf]
    have hdep2 : depthAllows t.maxDepth (s.level + 1) = true := by
      have hd : depthAllows t.maxDepth s2.level = true := hdep
      rw [hs2eq] at hd
      exact hd
    -- limited side
    rw [_traverse_recTrue_deep t c tag children s hbf (by simpa using hcnt) hap hrec hdep]
    rw [hpure]
    simp only [hbf]
    obtain ⟨heL, -, -, -⟩ := (pure_run_spec t c h).2 children
      ⟨s.level + 1, s.numNodes + apInc t (JsVal.node tag children), false⟩ rfl
    simp only [heL]
    -- unlimited side
    rw [_traverse_recTrue_deep t' c tag children su hsu (hcnt' su.numNodes)
      (by rw [hpure'])
      (by rw [hfr]; exact hrec)
      (by rw [hpure']; simp only [hfdep]
          rw [hlvl]; exact hdep2)]
    rw [hpure']
    simp only [hsu]
    obtain ⟨heU, -, -, -⟩ := (pure_run_spec t' c h').2 children
      ⟨su.level + 1, su.numNodes + apInc t' (JsVal.node tag children), false⟩ rfl
    simp only [heU]
    -- apply the induction hypothesis
    have hmin2 : s.numNodes + apInc t (JsVal.node tag children)
        = min (su.numNodes + apInc t' (JsVal.node tag children)) k := by
      rw [hapic]; omega
    have hIH := ih (by rw [hs2eq])
      ⟨su.level + 1, su.numNodes + apInc t' (JsVal.node tag children), false⟩
      rfl (by rw [hs2eq]; simp [hlvl]) (by rw [hs2eq]; exact hmin2)
    have hIH2 : (_traverseList t c children
        ⟨s.level + 1, s.numNodes + apInc t (JsVal.node tag children), false⟩).state.numNodes
        = min ((_traverseList t' c children
            ⟨su.level + 1, su.numNodes + apInc t' (JsVal.node tag children), false⟩).state.numNodes)
          k := by
      have := hIH
      rw [hs2eq] at this
      exact this
    exact hIH2
  · intro s hnb hcnt tag children ap hap s1 hrec s2 hdep hbf su hsu hlvl hmin
    have hpure := acceptPhase_pure h c (JsVal.node tag children) s
    have hlt : s.numNodes < k :=
      countLimit_false_lt k s.numNodes hk (by rw [← hmn]; simpa using hcnt)
    have hapinc := apInc_le_one t (JsVal.node tag children)
    have hapic := apInc_congr hfa (JsVal.node tag children)
    have hs1lvl : s1.level = s.level := by
      show ap.1.level = s.level
      rw [show ap = acceptPhase t c (JsVal.node tag children) s from rfl, hpure]
    have hdep2 : depthAllows t.maxDepth (s.level + 1) = false := by
      rw [← hs1lvl]
      simpa using hdep
    rw [_traverse_recTrue_shallow t c tag children s hbf (by simpa using hcnt) hap hrec
      (by rw [hpure]; simpa using hdep2)]
    rw [_traverse_recTrue_shallow t' c tag children su hsu (hcnt' su.numNodes)
      (by rw [acceptPhase_pure h'])
      (by rw [hfr]; exact hrec)
      (by rw [acceptPhase_pure h']; simp only [hfdep]
          rw [hlvl]; exact hdep2)]
    rw [hpure, acceptPhase_pure h']
    simp only
    omega
  · intro s hbf su hsu hlvl hmin
    rw [_traverseList_nil, _traverseList_nil]
    exact hmin
  · intro s v rest r e herr ih hbf su hsu hlvl hmin
    obtain ⟨hee, -, -, -⟩ := (pure_run_spec t c h).1 v s hbf
    have herr2 : (_traverse t c v s).err = some e := herr
    rw [hee] at herr2
    exact absurd herr2 (by simp)
  · intro s v rest r herr ih1 ih2 hbf su hsu hlvl hmin
    obtain ⟨h1, h2, h3, h4⟩ := (pure_run_spec t c h).1 v s hbf
    obtain ⟨g1, g2, g3, g4⟩ := (pure_run_spec t' c h').1 v su hsu
    rw [_traverseList_cons_ok t c v rest s h1, _traverseList_cons_ok t' c v rest su g1]
    have hstep := ih1 hbf su hsu hlvl hmin
    have hIH := ih2 (by
        have : r.state = (_traverse t c v s).state := rfl
        rw [this]; exact h2)
      ((_traverse t' c v su).state) g2 (by rw [g3, h3, hlvl]) (by
        have : r.state = (_traverse t c v s).state := rfl
        rw [this]; exact hstep)
    have hIH2 : (_traverseList t c rest (_traverse t c v s).state).state.numNodes
        = min ((_traverseList t' c rest (_traverse t' c v su).state).state.numNodes) k := by
      have hr : r.state = (_traverse t c v s).state := rfl
      rw [hr] at hIH
      exact hIH
    exact hIH2



theorem acceptPhase_state_level (t : Traversal ε γ) (c : γ) (v : JsVal) (s : TravState) :
    (acceptPhase t c v s).1.level = s.level := by
  unfold acceptPhase
  repeat' (first | split | dsimp only)

theorem acceptPhase_trace_lvl (t : Traversal ε γ) (c : γ) (v : JsVal) (s : TravState) :
    ∀ ev ∈ (acceptPhase t c v s).2.1, ev.lvl = s.level := by
  unfold acceptPhase
  repeat' (first | split | dsimp only)
  all_goals simp [Event.lvl]

theorem maxDepth_only_guard (t t2 : Traversal ε γ) (c : γ)
    (hfr : t2.recurseCallback = t.recurseCallback)
    (hfa : t2.acceptCallback = t.acceptCallback)
    (hfc : t2.callback = t.callback)
    (hfd : t2.denyCallback = t.denyCallback)
    (hfn : t2.maxNodes = t.maxNodes)
    (hda : ∀ l, depthAllows t2.maxDepth l = depthAllows t.maxDepth l) :
    (∀ v s, _traverse t2 c v s = _traverse t c v s) ∧
    (∀ vs s, _traverseList t2 c vs s = _traverseList t c vs s) := by
  have hapc := acceptPhase_congr hfa hfc hfd c
  refine _traverse.mutual_induct t c
    (fun v s => _traverse t2 c v s = _traverse t c v s)
    (fun vs s => _traverseList t2 c vs s = _traverseList t c vs s)
    ?_ ?_ ?_ ?_ ?_ ?_ ?_ ?_ ?_ ?_ ?_ ?_
  · intro v s hb
    rw [_traverse_brk t c v s hb, _traverse_brk t2 c v s hb]
  · intro v s hnb hcnt
    have hb : s.brk = false := by simpa using hnb
    rw [_traverse_count t c v s hb hcnt,
      _traverse_count t2 c v s hb (by rw [hfn]; exact hcnt)]
  · intro s hnb hcnt
    have hb : s.brk = false := by simpa using hnb
    rw [_traverse_nonNode t c s hb (by simpa using hcnt),
      _traverse_nonNode t2 c s hb (by rw [hfn]; simpa using hcnt)]
  · intro s hnb hcnt tag children ap e hap
    have hb : s.brk = false := by simpa using hnb
    have hap' : (acceptPhase t c (JsVal.node tag children) s).2.2 = some e := hap
    rw [_traverse_apErr t c tag children s e hb (by simpa using hcnt) hap',
      _traverse_apErr t2 c tag children s e hb (by rw [hfn]; simpa using hcnt)
        (by rw [hapc]; exact hap'), hapc]
  · intro s hnb hcnt tag children ap hap e hrec
    have hb : s.brk = false := by simpa using hnb
    have hap' : (acceptPhase t c (JsVal.node tag children) s).2.2 = none := hap
    rw [_traverse_recErr t c tag children s e hb (by simpa using hcnt) hap' hrec,
      _traverse_recErr t2 c tag children s e hb (by rw [hfn]; simpa using hcnt)
        (by rw [hapc]; exact hap') (by rw [hfr]; exact hrec), hapc]
  · intro s hnb hcnt tag children ap hap hrec
    have hb : s.brk = false := by simpa using hnb
    have hap' : (acceptPhase t c (JsVal.node tag children) s).2.2 = none := hap
    rw [_traverse_recFalse t c tag children s hb (by simpa using hcnt) hap' hrec,
      _traverse_recFalse t2 c tag children s hb (by rw [hfn]; simpa using hcnt)
        (by rw [hapc]; exact hap') (by rw [hfr]; exact hrec), hapc]
  · intro s hnb hcnt tag children ap hap s1 hrec s2 hdep r e herr ih
    have hb : s.brk = false := by simpa using hnb
    have hap' : (acceptPhase t c (JsVal.node tag children) s).2.2 = none := hap
    have hdepT : depthAllows t.maxDepth
        ((acceptPhase t c (JsVal.node tag children) s).1.level + 1) = true := hdep
    have ihX : _traverseList t2 c children
        ⟨(acceptPhase t c (JsVal.node tag children) s).1.level + 1,
         (acceptPhase t c (JsVal.node tag children) s).1.numNodes,
         (acceptPhase t c (JsVal.node tag children) s).1.brk⟩
        = _traverseList t c children
        ⟨(acceptPhase t c (JsVal.node tag children) s).1.level + 1,
         (acceptPhase t c (JsVal.node tag children) s).1.numNodes,
         (acceptPhase t c (JsVal.node tag children) s).1.brk⟩ := ih
    rw [_traverse_recTrue_deep t c tag children s hb (by simpa using hcnt) hap' hrec hdepT,
      _traverse_recTrue_deep t2 c tag children s hb (by rw [hfn]; simpa using hcnt)
        (by rw [hapc]; exact hap') (by rw [hfr]; exact hrec)
        (by rw [hapc, hda]; exact hdepT), hapc, ihX]
  · intro s hnb hcnt tag children ap hap s1 hrec s2 hdep r herr ih
    have hb : s.brk = false := by simpa using hnb
    have hap' : (acceptPhase t c (JsVal.node tag children) s).2.2 = none := hap
    have hdepT : depthAllows t.maxDepth
        ((acceptPhase t c (JsVal.node tag children) s).1.level + 1) = true := hdep
    have ihX : _traverseList t2 c children
        ⟨(acceptPhase t c (JsVal.node tag children) s).1.level + 1,
         (acceptPhase t c (JsVal.node tag children) s).1.numNodes,
         (acceptPhase t c (JsVal.node tag children) s).1.brk⟩
        = _traverseList t c children
        ⟨(acceptPhase t c (JsVal.node tag children) s).1.level + 1,
         (acceptPhase t c (JsVal.node tag children) s).1.numNodes,
         (acceptPhase t c (JsVal.node tag children) s).1.brk⟩ := ih
    rw [_traverse_recTrue_deep t c tag children s hb (by simpa using hcnt) hap' hrec hdepT,
      _traverse_recTrue_deep t2 c tag children s hb (by rw [hfn]; simpa using hcnt)
        (by rw [hapc]; exact hap') (by rw [hfr]; exact hrec)
        (by rw [hapc, hda]; exact hdepT), hapc, ihX]
  · intro s hnb hcnt tag children ap hap s1 hrec s2 hdep
    have hb : s.brk = false := by simpa using hnb
    have hap' : (acceptPhase t c (JsVal.node tag children) s).2.2 = none := hap
    have hdepT : depthAllows t.maxDepth
        ((acceptPhase t c (JsVal.node tag children) s).1.level + 1) = false := by
      simpa using hdep
    rw [_traverse_recTrue_shallow t c tag children s hb (by simpa using hcnt) hap' hrec hdepT,
      _traverse_recTrue_shallow t2 c tag children s hb (by rw [hfn]; simpa using hcnt)
        (by rw [hapc]; exact hap') (by rw [hfr]; exact hrec)
        (by rw [hapc, hda]; exact hdepT), hapc]
  · intro s
    rw [_traverseList_nil, _traverseList_nil]
  · intro s v rest r e herr ih
    have herr' : (_traverse t c v s).err = some e := herr
    rw [_traverseList_cons_err t c v rest s e herr',
      _traverseList_cons_err t2 c v rest s e (by rw [ih]; exact herr'), ih]
  · intro s v rest r herr ih ih2
    have herr' : (_traverse t c v s).err = none := herr
    have ih2' : _traverseList t2 c rest (_traverse t c v s).state
        = _traverseList t c rest (_traverse t c v s).state := ih2
    rw [_traverseList_cons_ok t c v rest s herr',
      _traverseList_cons_ok t2 c v rest s (by rw [ih]; exact herr'), ih, ih2']


theorem run_level_restore (t : Traversal ε γ) (c : γ) :
    (∀ v s, (_traverse t c v s).err = none → (_traverse t c v s).state.level = s.level) ∧
    (∀ vs s, (_traverseList t c vs s).err = none →
      (_traverseList t c vs s).state.level = s.level) := by
  refine _traverse.mutual_induct t c
    (fun v s => (_traverse t c v s).err = none → (_traverse t c v s).state.level = s.level)
    (fun vs s => (_traverseList t c vs s).err = none →
      (_traverseList t c vs s).state.level = s.level)
    ?_ ?_ ?_ ?_ ?_ ?_ ?_ ?_ ?_ ?_ ?_ ?_
  · intro v s hb _
    rw [_traverse_brk t c v s hb]
  · intro v s hnb hcnt _
    rw [_traverse_count t c v s (by simpa using hnb) hcnt]
  · intro s hnb hcnt _
    rw [_traverse_nonNode t c s (by simpa using hnb) (by simpa using hcnt)]
  · intro s hnb hcnt tag children ap e hap
    rw [_traverse_apErr t c tag children s e (by simpa using hnb) (by simpa using hcnt) hap]
    intro hx
    simp at hx
  · intro s hnb hcnt tag children ap hap e hrec
    rw [_traverse_recErr t c tag children s e (by simpa using hnb) (by simpa using hcnt)
      hap hrec]
    intro hx
    simp at hx
  · intro s hnb hcnt tag children ap hap hrec _
    rw [_traverse_recFalse t c tag children s (by simpa using hnb) (by simpa using hcnt)
      hap hrec]
    exact acceptPhase_state_level t c (JsVal.node tag children) s
  · intro s hnb hcnt tag children ap hap s1 hrec s2 hdep r e herr ih
    have hdepT : depthAllows t.maxDepth
        ((acceptPhase t c (JsVal.node tag children) s).1.level + 1) = true := hdep
    have herrX : (_traverseList t c children
        ⟨(acceptPhase t c (JsVal.node tag children) s).1.level + 1,
         (acceptPhase t c (JsVal.node tag children) s).1.numNodes,
         (acceptPhase t c (JsVal.node tag children) s).1.brk⟩).err = some e := herr
    rw [_traverse_recTrue_deep t c tag children s (by simpa using hnb) (by simpa using hcnt)
      hap hrec hdepT]
    simp only [herrX]
    intro hx
    simp at hx
  · intro s hnb hcnt tag children ap hap s1 hrec s2 hdep r herr ih
    have hdepT : depthAllows t.maxDepth
        ((acceptPhase t c (JsVal.node tag children) s).1.level + 1) = true := hdep
    have herrX : (_traverseList t c children
        ⟨(acceptPhase t c (JsVal.node tag children) s).1.level + 1,
         (acceptPhase t c (JsVal.node tag children) s).1.numNodes,
         (acceptPhase t c (JsVal.node tag children) s).1.brk⟩).err = none := herr
    have ihX : (_traverseList t c children
        ⟨(acceptPhase t c (JsVal.node tag children) s).1.level + 1,
         (acceptPhase t c (JsVal.node tag children) s).1.numNodes,
         (acceptPhase t c (JsVal.node tag children) s).1.brk⟩).state.level
        = (acceptPhase t c (JsVal.node tag children) s).1.level + 1 := ih herr
    rw [_traverse_recTrue_deep t c tag children s (by simpa using hnb) (by simpa using hcnt)
      hap hrec hdepT]
    simp only [herrX]
    intro _
    show (_traverseList t c children _).state.level - 1 = s.level
    rw [ihX, acceptPhase_state_level]
    omega
  · intro s hnb hcnt tag children ap hap s1 hrec s2 hdep _
    have hdepT : depthAllows t.maxDepth
        ((acceptPhase t c (JsVal.node tag children) s).1.level + 1) = false := by
      simpa using hdep
    rw [_traverse_recTrue_shallow t c tag children s (by simpa using hnb)
      (by simpa using hcnt) hap hrec hdepT]
    show (acceptPhase t c (JsVal.node tag children) s).1.level + 1 - 1 = s.level
    rw [acceptPhase_state_level]
    omega
  · intro s _
    rw [_traverseList_nil]
  · intro s v rest r e herr ih
    have herr' : (_traverse t c v s).err = some e := herr
    rw [_traverseList_cons_err t c v rest s e herr']
    intro hx
    simp at hx
  · intro s v rest r herr ih ih2
    have herr' : (_traverse t c v s).err = none := herr
    rw [_traverseList_cons_ok t c v rest s herr']
    intro hx
    have hx2 : (_traverseList t c rest (_traverse t c v s).state).err = none := hx
    have ih2' : (_traverseList t c rest (_traverse t c v s).state).state.level
        = (_traverse t c v s).state.level := ih2 hx2
    show (_traverseList t c rest (_traverse t c v s).state).state.level = s.level
    rw [ih2', ih herr']

/-- The possible origins of an exception value observed by the caller of
`traverse`: one of the four kinds of user-supplied functions threw exactly
this value at some node. -/
def thrownBy (t : Traversal ε γ) (c : γ) (e : ε) : Prop :=
  ∃ w, t.acceptCallback w = .error e ∨ t.recurseCallback w = .error e ∨
    (t.callback w c).err = some e ∨
    (∃ d, t.denyCallback = some d ∧ (d w c).err = some e)

theorem acceptPhase_err_origin (t : Traversal ε γ) (c : γ) (v : JsVal) (s : TravState)
    (e : ε) (hx : (acceptPhase t c v s).2.2 = some e) :
    t.acceptCallback v = .error e ∨ (t.callback v c).err = some e ∨
    (∃ d, t.denyCallback = some d ∧ (d v c).err = some e) := by
  unfold acceptPhase at hx
  revert hx
  cases hac : t.acceptCallback v with
  | error e2 =>
    intro hx
    simp at hx
    subst hx
    exact .inl rfl
  | ok b =>
    cases b with
    | true =>
      dsimp only
      cases hcb : (t.callback v c).err with
      | some e2 =>
        intro hx
        simp at hx
        subst hx
        exact .inr (.inl rfl)
      | none =>
        intro hx
        simp at hx
    | false =>
      cases hdc : t.denyCallback with
      | none =>
        intro hx
        simp at hx
      | some dcb =>
        dsimp only
        cases hde : (dcb v c).err with
        | some e2 =>
          intro hx
          simp at hx
          subst hx
          exact .inr (.inr ⟨dcb, rfl, hde⟩)
        | none =>
          intro hx
          simp at hx

theorem run_err_origin (t : Traversal ε γ) (c : γ) :
    (∀ v s e, (_traverse t c v s).err = some e → thrownBy t c e) ∧
    (∀ vs s e, (_traverseList t c vs s).err = some e → thrownBy t c e) := by
  refine _traverse.mutual_induct t c
    (fun v s => ∀ e, (_traverse t c v s).err = some e → thrownBy t c e)
    (fun vs s => ∀ e, (_traverseList t c vs s).err = some e → thrownBy t c e)
    ?_ ?_ ?_ ?_ ?_ ?_ ?_ ?_ ?_ ?_ ?_ ?_
  · intro v s hb e hx
    rw [_traverse_brk t c v s hb] at hx
    simp at hx
  · intro v s hnb hcnt e hx
    rw [_traverse_count t c v s (by simpa using hnb) hcnt] at hx
    simp at hx
  · intro s hnb hcnt e hx
    rw [_traverse_nonNode t c s (by simpa using hnb) (by simpa using hcnt)] at hx
    simp at hx
  · intro s hnb hcnt tag children ap e hap e2 hx
    rw [_traverse_apErr t c tag children s e (by simpa using hnb) (by simpa using hcnt)
      hap] at hx
    simp at hx
    subst hx
    exact ⟨JsVal.node tag children, acceptPhase_err_origin t c _ s e hap |>.imp id .inr⟩
  · intro s hnb hcnt tag children ap hap e hrec e2 hx
    rw [_traverse_recErr t c tag children s e (by simpa using hnb) (by simpa using hcnt)
      hap hrec] at hx
    simp at hx
    subst hx
    exact ⟨JsVal.node tag children, .inr (.inl hrec)⟩
  · intro s hnb hcnt tag children ap hap hrec e hx
    rw [_traverse_recFalse t c tag children s (by simpa using hnb) (by simpa using hcnt)
      hap hrec] at hx
    simp at hx
  · intro s hnb hcnt tag children ap hap s1 hrec s2 hdep r e herr ih e2 hx
    have herrX : (_traverseList t c children
        ⟨(acceptPhase t c (JsVal.node tag children) s).1.level + 1,
         (acceptPhase t c (JsVal.node tag children) s).1.numNodes,
         (acceptPhase t c (JsVal.node tag children) s).1.brk⟩).err = some e := herr
    have hdepT : depthAllows t.maxDepth
        ((acceptPhase t c (JsVal.node tag children) s).1.level + 1) = true := hdep
    rw [_traverse_recTrue_deep t c tag children s (by simpa using hnb) (by simpa using hcnt)
      hap hrec hdepT] at hx
    simp only [herrX] at hx
    simp at hx
    subst hx
    exact ih e herrX
  · intro s hnb hcnt tag children ap hap s1 hrec s2 hdep r herr ih e hx
    have herrX : (_traverseList t c children
        ⟨(acceptPhase t c (JsVal.node tag children) s).1.level + 1,
         (acceptPhase t c (JsVal.node tag children) s).1.numNodes,
         (acceptPhase t c (JsVal.node tag children) s).1.brk⟩).err = none := herr
    have hdepT : depthAllows t.maxDepth
        ((acceptPhase t c (JsVal.node tag children) s).1.level + 1) = true := hdep
    rw [_traverse_recTrue_deep t c tag children s (by simpa using hnb) (by simpa using hcnt)
      hap hrec hdepT] at hx
    simp only [herrX] at hx
    simp at hx
  · intro s hnb hcnt tag children ap hap s1 hrec s2 hdep e hx
    have hdepT : depthAllows t.maxDepth
        ((acceptPhase t c (JsVal.node tag children) s).1.level + 1) = false := by
      simpa using hdep
    rw [_traverse_recTrue_shallow t c tag children s (by simpa using hnb)
      (by simpa using hcnt) hap hrec hdepT] at hx
    simp at hx
  · intro s e hx
    rw [_traverseList_nil] at hx
    simp at hx
  · intro s v rest r e herr ih e2 hx
    have herr' : (_traverse t c v s).err = some e := herr
    rw [_traverseList_cons_err t c v rest s e herr'] at hx
    simp at hx
    subst hx
    exact ih e herr'
  · intro s v rest r herr ih ih2 e hx
    have herr' : (_traverse t c v s).err = none := herr
    rw [_traverseList_cons_ok t c v rest s herr'] at hx
    exact ih2 e hx

theorem depthAllows_int_le (d l : Nat) (hd : 1 ≤ d)
    (h : depthAllows (.int (d : Int)) l = true) : l ≤ d := by
  simp [depthAllows, JsNum.truthy] at h
  omega

theorem depth_bound (t : Traversal ε γ) (c : γ) (d : Nat) (hd : 1 ≤ d)
    (hmx : t.maxDepth = .int (d : Int)) :
    (∀ v s, s.level ≤ d → ∀ ev ∈ (_traverse t c v s).trace, ev.lvl ≤ d) ∧
    (∀ vs s, s.level ≤ d → ∀ ev ∈ (_traverseList t c vs s).trace, ev.lvl ≤ d) := by
  refine _traverse.mutual_induct t c
    (fun v s => s.level ≤ d → ∀ ev ∈ (_traverse t c v s).trace, ev.lvl ≤ d)
    (fun vs s => s.level ≤ d → ∀ ev ∈ (_traverseList t c vs s).trace, ev.lvl ≤ d)
    ?_ ?_ ?_ ?_ ?_ ?_ ?_ ?_ ?_ ?_ ?_ ?_
  · intro v s hb hl
    rw [_traverse_brk t c v s hb]
    simp
  · intro v s hnb hcnt hl
    rw [_traverse_count t c v s (by simpa using hnb) hcnt]
    simp
  · intro s hnb hcnt hl
    rw [_traverse_nonNode t c s (by simpa using hnb) (by simpa using hcnt)]
    simp
  · intro s hnb hcnt tag children ap e hap hl
    rw [_traverse_apErr t c tag children s e (by simpa using hnb) (by simpa using hcnt) hap]
    intro ev hev
    rw [acceptPhase_trace_lvl t c (JsVal.node tag children) s ev hev]
    exact hl
  · intro s hnb hcnt tag children ap hap e hrec hl
    rw [_traverse_recErr t c tag children s e (by simpa using hnb) (by simpa using hcnt)
      hap hrec]
    intro ev hev
    rcases List.mem_append.1 hev with hev1 | hev2
    · rw [acceptPhase_trace_lvl t c (JsVal.node tag children) s ev hev1]; exact hl
    · simp at hev2; subst hev2; simpa [Event.lvl] using hl
  · intro s hnb hcnt tag children ap hap hrec hl
    rw [_traverse_recFalse t c tag children s (by simpa using hnb) (by simpa using hcnt)
      hap hrec]
    intro ev hev
    rcases List.mem_append.1 hev with hev1 | hev2
    · rw [acceptPhase_trace_lvl t c (JsVal.node tag children) s ev hev1]; exact hl
    · simp at hev2; subst hev2; simpa [Event.lvl] using hl
  · intro s hnb hcnt tag children ap hap s1 hrec s2 hdep r e herr ih hl
    have hdepT : depthAllows t.maxDepth
        ((acceptPhase t c (JsVal.node tag children) s).1.level + 1) = true := hdep
    have hlvl1 : (acceptPhase t c (JsVal.node tag children) s).1.level = s.level :=
      acceptPhase_state_level t c (JsVal.node tag children) s
    have hld : s.level + 1 ≤ d := by
      refine depthAllows_int_le d (s.level + 1) hd ?_
      rw [← hmx, ← hlvl1]
      exact hdepT
    have ihX : ∀ ev ∈ (_traverseList t c children
        ⟨(acceptPhase t c (JsVal.node tag children) s).1.level + 1,
         (acceptPhase t c (JsVal.node tag children) s).1.numNodes,
         (acceptPhase t c (JsVal.node tag children) s).1.brk⟩).trace, ev.lvl ≤ d :=
      ih (by rw [show s2.level = s1.level + 1 from rfl,
        show s1.level = ap.1.level from rfl]
             exact (by rw [show ap.1.level = (acceptPhase t c (JsVal.node tag children) s).1.level from rfl, hlvl1]; exact hld))
    rw [_traverse_recTrue_deep t c tag children s (by simpa using hnb) (by simpa using hcnt)
      hap hrec hdepT]
    have herrX : (_traverseList t c children
        ⟨(acceptPhase t c (JsVal.node tag children) s).1.level + 1,
         (acceptPhase t c (JsVal.node tag children) s).1.numNodes,
         (acceptPhase t c (JsVal.node tag children) s).1.brk⟩).err = some e := herr
    simp only [herrX]
    intro ev hev
    rcases List.mem_append.1 hev with hev1 | hev3
    · rcases List.mem_append.1 hev1 with hev1a | hev2
      · rw [acceptPhase_trace_lvl t c (JsVal.node tag children) s ev hev1a]; exact hl
      · simp at hev2
        rcases hev2 with rfl | rfl <;> simpa [Event.lvl] using hl
    · exact ihX ev hev3
  · intro s hnb hcnt tag children ap hap s1 hrec s2 hdep r herr ih hl
    have hdepT : depthAllows t.maxDepth
        ((acceptPhase t c (JsVal.node tag children) s).1.level + 1) = true := hdep
    have hlvl1 : (acceptPhase t c (JsVal.node tag children) s).1.level = s.level :=
      acceptPhase_state_level t c (JsVal.node tag children) s
    have hld : s.level + 1 ≤ d := by
      refine depthAllows_int_le d (s.level + 1) hd ?_
      rw [← hmx, ← hlvl1]
      exact hdepT
    have ihX : ∀ ev ∈ (_traverseList t c children
        ⟨(acceptPhase t c (JsVal.node tag children) s).1.level + 1,
         (acceptPhase t c (JsVal.node tag children) s).1.numNodes,
         (acceptPhase t c (JsVal.node tag children) s).1.brk⟩).trace, ev.lvl ≤ d :=
      ih (by rw [show s2.level = s1.level + 1 from rfl,
        show s1.level = ap.1.level from rfl]
             exact (by rw [show ap.1.level = (acceptPhase t c (JsVal.node tag children) s).1.level from rfl, hlvl1]; exact hld))
    rw [_traverse_recTrue_deep t c tag children s (by simpa using hnb) (by simpa using hcnt)
      hap hrec hdepT]
    have herrX : (_traverseList t c children
        ⟨(acceptPhase t c (JsVal.node tag children) s).1.level + 1,
         (acceptPhase t c (JsVal.node tag children) s).1.numNodes,
         (acceptPhase t c (JsVal.node tag children) s).1.brk⟩).err = none := herr
    simp only [herrX]
    intro ev hev
    rcases List.mem_append.1 hev with hev1 | hev3
    · rcases List.mem_append.1 hev1 with hev1a | hev2
      · rw [acceptPhase_trace_lvl t c (JsVal.node tag children) s ev hev1a]; exact hl
      · simp at hev2
        rcases hev2 with rfl | rfl <;> simpa [Event.lvl] using hl
    · exact ihX ev hev3
  · intro s hnb hcnt tag children ap hap s1 hrec s2 hdep hl
    have hdepT : depthAllows t.maxDepth
        ((acceptPhase t c (JsVal.node tag children) s).1.level + 1) = false := by
      simpa using hdep
    rw [_traverse_recTrue_shallow t c tag children s (by simpa using hnb)
      (by simpa using hcnt) hap hrec hdepT]
    intro ev hev
    rcases List.mem_append.1 hev with hev1 | hev2
    · rw [acceptPhase_trace_lvl t c (JsVal.node tag children) s ev hev1]; exact hl
    · simp at hev2; subst hev2; simpa [Event.lvl] using hl
  · intro s hl
    rw [_traverseList_nil]
    simp
  · intro s v rest r e herr ih hl
    have herr' : (_traverse t c v s).err = some e := herr
    rw [_traverseList_cons_err t c v rest s e herr']
    exact ih hl
  · intro s v rest r herr ih ih2 hl
    have herr' : (_traverse t c v s).err = none := herr
    rw [_traverseList_cons_ok t c v rest s herr']
    intro ev hev
    rcases List.mem_append.1 hev with hev1 | hev2
    · exact ih hl ev hev1
    · refine ih2 ?_ ev hev2
      rw [(run_level_restore t c).1 v s herr']
      exact hl

/-! ### Concrete fixtures used by witnesses and counterexamples -/

/-- A callback that returns normally and does not call `break()`. -/
def cbNoop : JsVal → Unit → CbRet Unit := fun _ _ => ⟨false, none⟩

/-- A callback that throws `()` on every node. -/
def cbThrow : JsVal → Unit → CbRet Unit := fun _ _ => ⟨false, some ()⟩

/-- A predicate that accepts every value. -/
def predT : JsVal → Except Unit Bool := fun _ => .ok true

/-- A node whose primary type is the default `PAGE_TYPE`. -/
def pageNode : JsVal := .node PAGE_TYPE []

/-- A two-child tree: every node is both acceptable and recursable under
`predT`. -/
def rootTree : JsVal := .node "r" [.node "a" [], .node "b" []]

/-- A fresh builder with only the mandatory callback configured. -/
def b0 : Builder Unit Unit := Builder.new.setCallback cbNoop

/-! ### Claim theorems -/

/-- C1.  The spec claims the type-lists are captured by value at build time,
so that mutating the builder afterwards cannot change an already-built
Traversal's decisions.  The code disagrees: `build()` synthesizes
`(node) => nodeTypeUtil.isTypeOf(node, this.recurseTypes)`, an arrow closure
over `this`, so the built Traversal's recurse decision tracks the builder's
*current* list.  Evaluated at the failing input: a builder with the default
recurse types builds a Traversal whose recurse decision on a `PAGE_TYPE`
node is `true`; after `setRecurseTypes([])` on the same builder, the very
same built Traversal now decides `false`. -/
theorem build_typeLists_alias :
    b0.build.map (fun mk =>
      ((mk b0).recurseCallback pageNode,
       (mk (b0.setRecurseTypes [])).recurseCallback pageNode))
      = .ok (.ok true, .ok false) := rfl

/-- C4.  `build()` fails if and only if the callback is missing, or the
recurse type-list is empty with no recurse predicate, or the accept
type-list is empty with no accept predicate; for each axis a non-empty list
or a predicate is independently sufficient. -/
theorem build_error_iff {ε γ : Type} (b : Builder ε γ) :
    (∃ e, b.build = .error e) ↔
      (b.callback = none ∨
       (b.recurseTypes = [] ∧ b.recurseCallback = none) ∨
       (b.acceptTypes = [] ∧ b.acceptCallback = none)) := by
  unfold Builder.build
  cases hcb : b.callback with
  | none => simp
  | some cb =>
    by_cases h1 : b.recurseTypes = []
    · by_cases h2 : b.recurseCallback = none
      · simp [h1, h2]
      · obtain ⟨f, hf⟩ := Option.ne_none_iff_exists'.1 h2
        by_cases h3 : b.acceptTypes = []
        · by_cases h4 : b.acceptCallback = none
          · simp [h1, h3, h4, hf]
          · obtain ⟨g, hg⟩ := Option.ne_none_iff_exists'.1 h4
            simp [h1, h3, hf, hg]
        · simp [h1, h3, hf, List.length_eq_zero]
    · by_cases h3 : b.acceptTypes = []
      · by_cases h4 : b.acceptCallback = none
        · simp [h1, h3, h4, List.length_eq_zero]
        · obtain ⟨g, hg⟩ := Option.ne_none_iff_exists'.1 h4
          simp [h1, h3, hg, List.length_eq_zero]
      · simp [h1, h3, List.length_eq_zero]

/-- C5.  `build()` is atomic on error: in state-passing form the builder
state after the call is the input builder, unchanged, in every path — and
the caller can fix the configuration and retry: after supplying a callback
and both predicates on the returned builder state, `build()` succeeds. -/
theorem build_atomic_retry {ε γ : Type} (b : Builder ε γ)
    (cb : JsVal → γ → CbRet ε) (f g : JsVal → Except ε Bool) :
    (b.buildS).2 = b ∧
    (∃ mk, ((((b.buildS).2.setCallback cb).setRecurseCallback f).setAcceptCallback g).build
      = .ok mk) := by
  refine ⟨rfl, ?_⟩
  simp [Builder.buildS, Builder.setCallback, Builder.setRecurseCallback,
    Builder.setAcceptCallback, Builder.build]

/-- C7.  `traverse(node, context)` resets `numNodes` to 0 and the broken
flag to false before walking (but keeps `level`); hence `break()` called
after a completed walk has no effect on the next call, and the previous
walk's node count is irrelevant to the next walk. -/
theorem traverse_resets_count_break {ε γ : Type} (t : Traversal ε γ)
    (v : JsVal) (c : γ) (l n n' : Nat) (b b' : Bool) :
    t.traverse v c ⟨l, n, b⟩ = _traverse t c v ⟨l, 0, false⟩ ∧
    t.traverse v c (Traversal.break' ⟨l, n, b⟩) = t.traverse v c ⟨l, n, b⟩ ∧
    t.traverse v c ⟨l, n, b⟩ = t.traverse v c ⟨l, n', b'⟩ :=
  ⟨rfl, rfl, rfl⟩

/-- A traversal with accept-all/recurse-all predicates whose `callback`
throws on every node. -/
def tThrow : Traversal Unit Unit := ⟨predT, predT, cbThrow, none, .null, .int 0⟩

/-- C8.  Errors thrown by user functions are not caught, wrapped or retried:
whatever exception a walk reports is the verbatim value thrown by one of the
user-supplied functions, and an exception from one child aborts the
remaining siblings of the child-iteration loop. -/
theorem walk_error_propagation {ε γ : Type} (t : Traversal ε γ) (c : γ)
    (v : JsVal) (s : TravState) (e : ε) :
    ((t.traverse v c s).err = some e → thrownBy t c e) ∧
    (∀ rest, (_traverse t c v s).err = some e →
      _traverseList t c (v :: rest) s =
        ⟨(_traverse t c v s).state, (_traverse t c v s).trace, some e⟩) := by
  constructor
  · intro hx
    exact (run_err_origin t c).1 v ⟨s.level, 0, false⟩ e hx
  · intro rest herr
    exact _traverseList_cons_err t c v rest s e herr

/-- Witness for C8 at a concrete throwing traversal. -/
theorem walk_error_propagation_witness :
    thrownBy tThrow () () ∧
    _traverseList tThrow () (pageNode :: [rootTree]) ⟨0, 0, false⟩ =
      ⟨(_traverse tThrow () pageNode ⟨0, 0, false⟩).state,
       (_traverse tThrow () pageNode ⟨0, 0, false⟩).trace, some ()⟩ := by
  refine ⟨(walk_error_propagation tThrow () pageNode ⟨0, 0, false⟩ ()).1 ?_,
          (walk_error_propagation tThrow () pageNode ⟨0, 0, false⟩ ()).2 [rootTree] ?_⟩
  · simp [Traversal.traverse, _traverse, acceptPhase, tThrow, pageNode, predT, cbThrow,
      countLimitHit]
  · simp [_traverse, acceptPhase, tThrow, pageNode, predT, cbThrow, countLimitHit]

/-- Callback throwing exactly on nodes of type `"boom"`. -/
def cbBoom : JsVal → Unit → CbRet Unit :=
  fun v _ => if isTypeOf v ["boom"] then ⟨false, some ()⟩ else ⟨false, none⟩

/-- Accept-all/recurse-all traversal with `maxDepth = 1` whose callback
throws on `"boom"` nodes. -/
def tX : Traversal Unit Unit := ⟨predT, predT, cbBoom, none, .int 1, .int 0⟩

/-- A root whose only child makes `tX`'s callback throw at level 1. -/
def treeB : JsVal := .node "rB" [.node "boom" []]

/-- A root with one harmless child. -/
def treeO : JsVal := .node "r2" [.node "ok" []]

/-- An accept-all/recurse-all traversal with pure callbacks and no limits. -/
def tPureW : Traversal Unit Unit := ⟨predT, predT, cbNoop, none, .null, .int 0⟩

/-- C10.  `traverse` resets `numNodes` and the broken flag but never
`level`; a walk that completes without an exception restores `level`, but an
exception mid-descent leaves `level` at its nonzero mid-walk value
(`this.level--` is skipped by the unwinding), and the next `traverse` call
on the same instance evaluates its `maxDepth` comparison offset by the stale
level: from the stale state the walk of `treeO` stops at the root (events at
level 1, no `getNodes`), while from a fresh state it descends to the child. -/
theorem level_not_reset :
    (∀ (ε γ : Type) (t : Traversal ε γ) (c : γ) (v : JsVal) (l n : Nat) (b : Bool),
      t.traverse v c ⟨l, n, b⟩ = _traverse t c v ⟨l, 0, false⟩) ∧
    (∀ (ε γ : Type) (t : Traversal ε γ) (c : γ) (v : JsVal) (s : TravState),
      (_traverse t c v s).err = none → (_traverse t c v s).state.level = s.level) ∧
    ((tX.traverse treeB () ⟨0, 0, false⟩).err = some () ∧
     (tX.traverse treeB () ⟨0, 0, false⟩).state.level = 1 ∧
     (tX.traverse treeO () ((tX.traverse treeB () ⟨0, 0, false⟩).state)).trace =
       [.acceptEval 1 treeO, .callEvt 1 treeO, .recurseEval 1 treeO] ∧
     (tX.traverse treeO () ⟨0, 0, false⟩).trace =
       [.acceptEval 0 treeO, .callEvt 0 treeO, .recurseEval 0 treeO, .getNodes 0 treeO,
        .acceptEval 1 (.node "ok" []), .callEvt 1 (.node "ok" []),
        .recurseEval 1 (.node "ok" [])]) := by
  refine ⟨fun ε γ t c v l n b => rfl,
          fun ε γ t c v s => (run_level_restore t c).1 v s, ?_, ?_, ?_, ?_⟩
  · simp [Traversal.traverse, _traverse, _traverseList, acceptPhase, tX, treeB, predT,
      cbBoom, isTypeOf, countLimitHit, depthAllows, JsNum.truthy]
  · simp [Traversal.traverse, _traverse, _traverseList, acceptPhase, tX, treeB, predT,
      cbBoom, isTypeOf, countLimitHit, depthAllows, JsNum.truthy]
  · simp [Traversal.traverse, _traverse, _traverseList, acceptPhase, tX, treeB, treeO,
      predT, cbBoom, isTypeOf, countLimitHit, depthAllows, JsNum.truthy]
  · simp [Traversal.traverse, _traverse, _traverseList, acceptPhase, tX, treeO, predT,
      cbBoom, isTypeOf, countLimitHit, depthAllows, JsNum.truthy]

/-- Witness for C10's level-restoration component at a concrete pure walk
started at level 5. -/
theorem level_not_reset_witness :
    (_traverse tPureW () pageNode ⟨5, 0, false⟩).state.level = 5 :=
  level_not_reset.2.1 Unit Unit tPureW () pageNode ⟨5, 0, false⟩
    (by simp [_traverse, acceptPhase, tPureW, pageNode, predT, cbNoop, countLimitHit,
      depthAllows, JsNum.truthy, _traverseList])

/-- A builder configured with both predicates and a non-numeric `maxDepth`. -/
def bNan : Builder Unit Unit :=
  ((b0.setRecurseCallback predT).setAcceptCallback predT).setMaxDepth .nonNumeric

/-- The traversal `bNan.build` produces: `maxDepth` is the `NaN` sentinel. -/
def tNan : Traversal Unit Unit := ⟨predT, predT, cbNoop, none, .nan, .int 0⟩

/-- C9 counterexample.  `setMaxDepth` with non-numeric input does coerce to
the `NaN` sentinel without raising — but the claim's conclusion is wrong:
because `NaN` is falsy, `!this.maxDepth` short-circuits the depth guard and
the built Traversal descends without bound.  On a two-child tree the walk
invokes the callback three times and fetches children of every node,
refuting "no children are ever fetched (only the root node is evaluated)". -/
theorem setMaxDepth_nan_cx :
    bNan.build.map (fun mk => mk bNan) = .ok tNan ∧
    callCount ((tNan.traverse rootTree () ⟨0, 0, false⟩).trace) = 3 ∧
    (tNan.traverse rootTree () ⟨0, 0, false⟩).trace =
      [.acceptEval 0 rootTree, .callEvt 0 rootTree, .recurseEval 0 rootTree,
       .getNodes 0 rootTree,
       .acceptEval 1 (.node "a" []), .callEvt 1 (.node "a" []),
       .recurseEval 1 (.node "a" []), .getNodes 1 (.node "a" []),
       .acceptEval 1 (.node "b" []), .callEvt 1 (.node "b" []),
       .recurseEval 1 (.node "b" []), .getNodes 1 (.node "b" [])] := by
  refine ⟨rfl, ?_, ?_⟩ <;>
    simp [Traversal.traverse, _traverse, _traverseList, acceptPhase, tNan, rootTree,
      predT, cbNoop, countLimitHit, depthAllows, JsNum.truthy, callCount, isCallEvt]

/-- C9 amended.  Passing a non-numeric value to `setMaxDepth` does not
raise and stores the `NaN` sentinel; but a `NaN` `maxDepth` is falsy in the
depth guard, so the built Traversal behaves exactly like one with
`maxDepth` unset (`null`): unlimited descent, not "no children". -/
theorem setMaxDepth_nan_amended :
    (∀ (ε γ : Type) (b : Builder ε γ), (b.setMaxDepth .nonNumeric).maxDepth = .nan) ∧
    (∀ (ε γ : Type) (t : Traversal ε γ) (c : γ) (v : JsVal) (s : TravState),
      t.maxDepth = .nan →
      _traverse t c v s = _traverse { t with maxDepth := .null } c v s) := by
  refine ⟨fun ε γ b => rfl, fun ε γ t c v s hnan => ?_⟩
  exact (maxDepth_only_guard { t with maxDepth := JsNum.null } t c rfl rfl rfl rfl rfl
    (by intro l; rw [hnan]; simp [depthAllows, JsNum.truthy])).1 v s

/-- Witness for C9's amended equivalence at the concrete `NaN` traversal. -/
theorem setMaxDepth_nan_amended_witness :
    _traverse tNan () pageNode ⟨0, 0, false⟩ =
      _traverse { tNan with maxDepth := JsNum.null } () pageNode ⟨0, 0, false⟩ :=
  setMaxDepth_nan_amended.2 Unit Unit tNan () pageNode ⟨0, 0, false⟩ rfl

/-- A builder configured with both predicates and `maxDepth = 0`. -/
def bD0 : Builder Unit Unit :=
  ((b0.setRecurseCallback predT).setAcceptCallback predT).setMaxDepth (.int 0)

/-- The traversal `bD0.build` produces: `maxDepth` is the integer `0`. -/
def tD0 : Traversal Unit Unit := ⟨predT, predT, cbNoop, none, .int 0, .int 0⟩

/-- C2 counterexample.  A Traversal built with `maxDepth = 0` does NOT stop
at the root: `0` is falsy, so `!this.maxDepth` short-circuits the depth
guard and the walk descends as if unlimited.  On a two-child tree the
callback fires three times and the root's children are fetched, refuting
"fetches no children of the root". -/
theorem maxDepth_zero_cx :
    bD0.build.map (fun mk => mk bD0) = .ok tD0 ∧
    callCount ((tD0.traverse rootTree () ⟨0, 0, false⟩).trace) = 3 ∧
    (tD0.traverse rootTree () ⟨0, 0, false⟩).trace =
      [.acceptEval 0 rootTree, .callEvt 0 rootTree, .recurseEval 0 rootTree,
       .getNodes 0 rootTree,
       .acceptEval 1 (.node "a" []), .callEvt 1 (.node "a" []),
       .recurseEval 1 (.node "a" []), .getNodes 1 (.node "a" []),
       .acceptEval 1 (.node "b" []), .callEvt 1 (.node "b" []),
       .recurseEval 1 (.node "b" []), .getNodes 1 (.node "b" [])] := by
  refine ⟨rfl, ?_, ?_⟩ <;>
    simp [Traversal.traverse, _traverse, _traverseList, acceptPhase, tD0, rootTree,
      predT, cbNoop, countLimitHit, depthAllows, JsNum.truthy, callCount, isCallEvt]

theorem countLimitHit_start (m : JsNum) : countLimitHit m 0 = false := by
  cases m with
  | int n => simp [countLimitHit]
  | null => rfl
  | nan => rfl

theorem head_append_some {α : Type} {l l2 : List α} {a : α}
    (h : l.head? = some a) : (l ++ l2).head? = some a := by
  cases l with
  | nil => simp at h
  | cons x xs => simpa using h

theorem acceptPhase_head (t : Traversal ε γ) (c : γ) (v : JsVal) (s : TravState) :
    (acceptPhase t c v s).2.1.head? = some (.acceptEval s.level v) := by
  unfold acceptPhase
  repeat' (first | split | dsimp only)
  all_goals rfl

theorem node_trace_head (t : Traversal ε γ) (c : γ) (tag : String)
    (children : List JsVal) (s : TravState) (hb : s.brk = false)
    (hcnt : countLimitHit t.maxNodes s.numNodes = false) :
    (_traverse t c (.node tag children) s).trace.head? =
      some (.acceptEval s.level (.node tag children)) := by
  cases hap : (acceptPhase t c (.node tag children) s).2.2 with
  | some e =>
    rw [_traverse_apErr t c tag children s e hb hcnt hap]
    exact acceptPhase_head t c (.node tag children) s
  | none =>
    cases hrec : t.recurseCallback (.node tag children) with
    | error e =>
      rw [_traverse_recErr t c tag children s e hb hcnt hap hrec]
      exact head_append_some (acceptPhase_head t c (.node tag children) s)
    | ok bb =>
      cases bb with
      | false =>
        rw [_traverse_recFalse t c tag children s hb hcnt hap hrec]
        exact head_append_some (acceptPhase_head t c (.node tag children) s)
      | true =>
        cases hdep : depthAllows t.maxDepth
            ((acceptPhase t c (.node tag children) s).1.level + 1) with
        | false =>
          rw [_traverse_recTrue_shallow t c tag children s hb hcnt hap hrec hdep]
          exact head_append_some (acceptPhase_head t c (.node tag children) s)
        | true =>
          rw [_traverse_recTrue_deep t c tag children s hb hcnt hap hrec hdep]
          cases herr : (_traverseList t c children
              ⟨(acceptPhase t c (.node tag children) s).1.level + 1,
               (acceptPhase t c (.node tag children) s).1.numNodes,
               (acceptPhase t c (.node tag children) s).1.brk⟩).err with
          | some e =>
            simp only [herr]
            exact head_append_some (head_append_some
              (acceptPhase_head t c (.node tag children) s))
          | none =>
            simp only [herr]
            exact head_append_some (head_append_some
              (acceptPhase_head t c (.node tag children) s))

/-- C2 amended.  `maxDepth = 0` is falsy in the guard and therefore behaves
exactly like an unset `maxDepth` (children ARE fetched, unlimited descent);
with `maxDepth = d ≥ 1` and a walk started at level 0, every recorded event
sits at recursion level at most `d`, so no node at level `> d` is visited;
and every walk of a node evaluates the node itself first (its accept
evaluation is the first observable event). -/
theorem depth_limit_amended :
    (∀ (ε γ : Type) (t : Traversal ε γ) (c : γ) (v : JsVal) (s : TravState),
      t.maxDepth = .int 0 →
      _traverse t c v s = _traverse { t with maxDepth := .null } c v s) ∧
    (∀ (ε γ : Type) (t : Traversal ε γ) (c : γ) (d : Nat) (v : JsVal) (n : Nat) (bb : Bool),
      1 ≤ d → t.maxDepth = .int (d : Int) →
      ∀ ev ∈ (t.traverse v c ⟨0, n, bb⟩).trace, ev.lvl ≤ d) ∧
    (∀ (ε γ : Type) (t : Traversal ε γ) (c : γ) (tag : String)
      (children : List JsVal) (s : TravState),
      (t.traverse (.node tag children) c s).trace.head? =
        some (.acceptEval s.level (.node tag children))) := by
  refine ⟨fun ε γ t c v s h0 => ?_, fun ε γ t c d v n bb hd hmx => ?_, fun ε γ t c tag children s => ?_⟩
  · exact (maxDepth_only_guard { t with maxDepth := JsNum.null } t c rfl rfl rfl rfl rfl
      (by intro l; rw [h0]; simp [depthAllows, JsNum.truthy])).1 v s
  · exact (depth_bound t c d hd hmx).1 v ⟨0, 0, false⟩ (by simp)
  · exact node_trace_head t c tag children ⟨s.level, 0, false⟩ rfl
      (countLimitHit_start t.maxNodes)

/-- Witness for C2's amended statement: the depth-0 equivalence at the
concrete traversal built from `bD0`, the level bound at `d = 1` on the
two-child tree, and the root evaluation on the same tree. -/
theorem depth_limit_amended_witness :
    _traverse tD0 () rootTree ⟨0, 0, false⟩ =
      _traverse { tD0 with maxDepth := JsNum.null } () rootTree ⟨0, 0, false⟩ ∧
    (Event.acceptEval 1 (.node "ok" [])).lvl ≤ 1 ∧
    (tX.traverse treeO () ⟨0, 0, false⟩).trace.head? =
      some (.acceptEval 0 treeO) :=
  ⟨depth_limit_amended.1 Unit Unit tD0 () rootTree ⟨0, 0, false⟩ rfl,
   depth_limit_amended.2.1 Unit Unit tX () 1 treeO 0 false (by decide) (by simp [tX])
     (Event.acceptEval 1 (.node "ok" []))
     (by simp [Traversal.traverse, _traverse, _traverseList, acceptPhase, tX, treeO,
       predT, cbBoom, isTypeOf, countLimitHit, depthAllows, JsNum.truthy]),
   depth_limit_amended.2.2 Unit Unit tX () "r2" [.node "ok" []] ⟨0, 0, false⟩⟩

theorem acceptPhase_acceptTrue (t : Traversal ε γ) (c : γ) (v : JsVal) (s : TravState)
    (hac : t.acceptCallback v = .ok true) (hcb : (t.callback v c).err = none) :
    acceptPhase t c v s =
      (⟨s.level, s.numNodes + 1, s.brk || (t.callback v c).brk⟩,
       [.acceptEval s.level v, .callEvt s.level v], none) := by
  unfold acceptPhase
  rw [hac]
  dsimp only
  rw [hcb]

theorem acceptPhase_denyRun (t : Traversal ε γ) (c : γ) (v : JsVal) (s : TravState)
    (d : JsVal → γ → CbRet ε) (hac : t.acceptCallback v = .ok false)
    (hd : t.denyCallback = some d) (hde : (d v c).err = none) :
    acceptPhase t c v s =
      (⟨s.level, s.numNodes, s.brk || (d v c).brk⟩,
       [.acceptEval s.level v, .denyEvt s.level v], none) := by
  unfold acceptPhase
  rw [hac]
  dsimp only
  rw [hd]
  dsimp only
  rw [hde]

/-- C6.  Accept and recurse are orthogonal at a visited node: with accept
true and recurse false, `callback` runs and the walk records nothing about
the children (the trace is exactly accept evaluation, callback, recurse
evaluation); with accept false and recurse true and a deny callback set,
`denyCallback` runs and the walk proceeds to fetch and process the child
list. -/
theorem accept_recurse_orthogonal {ε γ : Type} (t : Traversal ε γ) (c : γ)
    (tag : String) (children : List JsVal) (s : TravState)
    (hb : s.brk = false) (hcnt : countLimitHit t.maxNodes s.numNodes = false) :
    (t.acceptCallback (.node tag children) = .ok true →
      t.recurseCallback (.node tag children) = .ok false →
      (t.callback (.node tag children) c).err = none →
      (_traverse t c (.node tag children) s).trace =
        [.acceptEval s.level (.node tag children),
         .callEvt s.level (.node tag children),
         .recurseEval s.level (.node tag children)]) ∧
    (∀ d, t.acceptCallback (.node tag children) = .ok false →
      t.recurseCallback (.node tag children) = .ok true →
      t.denyCallback = some d → d (.node tag children) c = ⟨false, none⟩ →
      depthAllows t.maxDepth (s.level + 1) = true →
      (_traverse t c (.node tag children) s).trace =
        [.acceptEval s.level (.node tag children),
         .denyEvt s.level (.node tag children),
         .recurseEval s.level (.node tag children),
         .getNodes s.level (.node tag children)]
          ++ (_traverseList t c children ⟨s.level + 1, s.numNodes, false⟩).trace) := by
  constructor
  · intro hac hrec hcb
    have hap := acceptPhase_acceptTrue t c (.node tag children) s hac hcb
    rw [_traverse_recFalse t c tag children s hb hcnt (by rw [hap]) hrec, hap]
    rfl
  · intro d hac hrec hd hde hdep
    have hdeE : (d (.node tag children) c).err = none := by rw [hde]
    have hap := acceptPhase_denyRun t c (.node tag children) s d hac hd hdeE
    have hdep' : depthAllows t.maxDepth
        ((acceptPhase t c (.node tag children) s).1.level + 1) = true := by
      rw [hap]; exact hdep
    rw [_traverse_recTrue_deep t c tag children s hb hcnt (by rw [hap]) hrec hdep', hap]
    simp only [hde, hb]
    cases herr : (_traverseList t c children ⟨s.level + 1, s.numNodes, false⟩).err <;>
      simp [herr]

/-- A traversal accepting exactly type-`"A"` nodes, recursing exactly on
type-`"R"` nodes, with a deny callback set and no limits. -/
def t6 : Traversal Unit Unit :=
  ⟨fun v => .ok (isTypeOf v ["R"]), fun v => .ok (isTypeOf v ["A"]),
   cbNoop, some cbNoop, .null, .int 0⟩

/-- An accepted-but-not-recursed node with one child. -/
def nA : JsVal := .node "A" [.node "c1" []]

/-- A recursed-but-not-accepted node with one child. -/
def nR : JsVal := .node "R" [.node "c2" []]

/-- Witness for C6 at the concrete traversal `t6`. -/
theorem accept_recurse_orthogonal_witness :
    (_traverse t6 () nA ⟨0, 0, false⟩).trace =
      [.acceptEval 0 nA, .callEvt 0 nA, .recurseEval 0 nA] ∧
    (_traverse t6 () nR ⟨0, 0, false⟩).trace =
      [.acceptEval 0 nR, .denyEvt 0 nR, .recurseEval 0 nR, .getNodes 0 nR]
        ++ (_traverseList t6 () [.node "c2" []] ⟨1, 0, false⟩).trace :=
  ⟨(accept_recurse_orthogonal t6 () "A" [.node "c1" []] ⟨0, 0, false⟩ rfl rfl).1
      (by simp [t6, isTypeOf]) (by simp [t6, isTypeOf]) rfl,
   (accept_recurse_orthogonal t6 () "R" [.node "c2" []] ⟨0, 0, false⟩ rfl rfl).2 cbNoop
      (by simp [t6, isTypeOf]) (by simp [t6, isTypeOf]) rfl rfl rfl⟩

/-- An accept-all/recurse-all pure traversal with `maxNodes = 1`. -/
def tW : Traversal Unit Unit := ⟨predT, predT, cbNoop, none, .null, .int 1⟩

theorem tW_pure : PureCbs tW :=
  ⟨fun _ => ⟨true, rfl⟩, fun _ => ⟨true, rfl⟩, fun _ _ => rfl,
   fun _ hd => Option.noConfusion hd⟩

/-- C3.  With `maxNodes = k > 0` and at least `k` nodes that the same walk
without a count limit would accept, a single `traverse` call invokes
`callback` exactly `k` times, and every visit event (accept evaluation,
callback, deny) in the walk happens strictly before the running callback
count reaches `k`: no node reached after the k-th accepted one is visited at
all, deny included. -/
theorem maxNodes_exact_count {ε γ : Type} (t : Traversal ε γ) (c : γ) (k : Nat)
    (root : JsVal) (s : TravState) (hk : 0 < k)
    (hmn : t.maxNodes = .int (k : Int)) (h : PureCbs t)
    (henough : k ≤ callCount (({ t with maxNodes := .int 0 }).traverse root c s).trace) :
    callCount ((t.traverse root c s).trace) = k ∧
    (∀ xs e ys, (t.traverse root c s).trace = xs ++ e :: ys → isVisitEvt e = true →
      callCount xs < k) := by
  have h0 : PureCbs { t with maxNodes := .int 0 } := pureCbs_congr rfl rfl rfl rfl h
  constructor
  · have hG := (limited_min t { t with maxNodes := .int 0 } c h k hk hmn
      rfl rfl rfl rfl rfl rfl).1 root ⟨s.level, 0, false⟩ rfl ⟨s.level, 0, false⟩
      rfl rfl (by simp)
    obtain ⟨-, -, -, hL⟩ := (pure_run_spec t c h).1 root ⟨s.level, 0, false⟩ rfl
    obtain ⟨-, -, -, hU⟩ :=
      (pure_run_spec { t with maxNodes := .int 0 } c h0).1 root ⟨s.level, 0, false⟩ rfl
    have he2 : k ≤ callCount
        ((_traverse { t with maxNodes := .int 0 } c root ⟨s.level, 0, false⟩).trace) :=
      henough
    show callCount ((_traverse t c root ⟨s.level, 0, false⟩).trace) = k
    dsimp only at hL hU
    omega
  · intro xs e ys htr hve
    have hvb := (limited_visits_bounded t c h k hk hmn).1 root ⟨s.level, 0, false⟩ rfl
    have htr2 : (_traverse t c root ⟨s.level, 0, false⟩).trace = xs ++ e :: ys := htr
    rw [htr2] at hvb
    have hlt := visitsBounded_no_visit_after k xs 0 e ys hvb hve
    omega

/-- Witness for C3: `tW` (limit 1) on the two-child tree fires the callback
exactly once, and the callback event of the walk occurs while the count is
still below the limit. -/
theorem maxNodes_exact_count_witness :
    callCount ((tW.traverse rootTree () ⟨0, 0, false⟩).trace) = 1 ∧
    callCount [Event.acceptEval 0 rootTree] < 1 :=
  ⟨(maxNodes_exact_count tW () 1 rootTree ⟨0, 0, false⟩ (by decide) rfl tW_pure
      (by simp [Traversal.traverse, _traverse, _traverseList, acceptPhase, tW, rootTree,
        predT, cbNoop, countLimitHit, depthAllows, JsNum.truthy, callCount, isCallEvt])).1,
   (maxNodes_exact_count tW () 1 rootTree ⟨0, 0, false⟩ (by decide) rfl tW_pure
      (by simp [Traversal.traverse, _traverse, _traverseList, acceptPhase, tW, rootTree,
        predT, cbNoop, countLimitHit, depthAllows, JsNum.truthy, callCount, isCallEvt])).2
     [Event.acceptEval 0 rootTree] (Event.callEvt 0 rootTree)
     [Event.recurseEval 0 rootTree, Event.getNodes 0 rootTree]
     (by simp [Traversal.traverse, _traverse, _traverseList, acceptPhase, tW, rootTree,
        predT, cbNoop, countLimitHit, depthAllows, JsNum.truthy])
     rfl⟩

end TB
